import Mathlib

/-!
Verification of the manual ingestion and retrieval engine of the PWS_V2
repository (`src/backend/src/manuals/manuals.service.ts` and
`src/backend/src/vector-store/vector-store.service.ts`).

Modelling conventions:
* JS strings are modelled as `List Char` with code-point indexing
  (faithful for all inputs considered here; JS uses UTF-16 code units,
  which agrees with code points outside surrogate pairs).
* JS numbers used as sizes/offsets are modelled as `Int`/`Nat`; the
  `embedRatio` float and embedding coordinates are modelled as `Rat`.
* `new Date().toISOString()` and `randomUUID()` are modelled by an
  environment supplying a timestamp and an indexed id supply.
* The external embedding collaborator (`EmbeddingsService.embed`, not part
  of the core under verification; the spec treats it as an external
  collaborator) is an environment parameter returning `Except`.
* `Math.sqrt` (a float operation with no exact rational counterpart) is an
  abstract parameter of `cosineSimilarity`; every property proved below
  holds for an arbitrary square-root function.
-/

set_option autoImplicit false

namespace PWS

/-- Whitespace as matched by JS `String.prototype.trim` (restricted to the
ASCII whitespace characters; the Unicode space classes never occur in the
inputs considered here). -/
def isJsWs (c : Char) : Bool :=
  c = ' ' || c = '\t' || c = '\n' || c = '\r' || c = '\x0b' || c = '\x0c'

/-- Drop leading JS whitespace. -/
def trimLeft (l : List Char) : List Char := l.dropWhile isJsWs

/-- Drop trailing JS whitespace. -/
def trimRight (l : List Char) : List Char := (l.reverse.dropWhile isJsWs).reverse

/-- Model of JS `String.prototype.trim`. -/
def jsTrim (l : List Char) : List Char := trimRight (trimLeft l)

/-- Model of JS `String.prototype.slice(start, end)`: negative indices count
from the end of the string, out-of-range indices are clamped, and a start at
or past the end yields the empty string. -/
def jsSlice (l : List Char) (s e : Int) : List Char :=
  let n : Int := l.length
  let si : Nat := (if s < 0 then max (n + s) 0 else min s n).toNat
  let ei : Nat := (if e < 0 then max (n + e) 0 else min e n).toNat
  (l.drop si).take (ei - si)

/-- Loop body of `chunkText` (manuals.service.ts:605-617), with explicit
fuel standing for the number of remaining loop iterations the model is
willing to execute.  `none` means the fuel ran out before the `while`
condition became false, i.e. the source loop would still be running. -/
def chunkTextLoop (text : List Char) (chunkSize overlap : Int) :
    Nat → Int → Option (List (List Char))
  | 0, _ => none
  | fuel + 1, start =>
    if start < (text.length : Int) then
      let e := start + chunkSize
      let chunk := jsTrim (jsSlice text start e)
      match chunkTextLoop text chunkSize overlap fuel (e - overlap) with
      | none => none
      | some rest => some (if chunk.isEmpty then rest else chunk :: rest)
    else
      some []

/-- `chunkText` with its default parameters `chunkSize = 800`,
`overlap = 100` (the only way the service ever calls it).  The fuel
`text.length + 1` is sufficient because each iteration advances `start` by
`800 - 100 = 700 ≥ 1`; `chunkText_eq_loop` below proves the fuel never runs
out, so the `getD` default is never taken. -/
def chunkText (text : List Char) : List (List Char) :=
  (chunkTextLoop text 800 100 (text.length + 1) 0).getD []

/-- JS `Math.round` for non-negative arguments (the only arguments it
receives here): round half away from zero, i.e. `⌊x + 1/2⌋`. -/
def jsRound (q : Rat) : Int := ⌊q + 1/2⌋

/-- The ratio clamp `Math.min(1, Math.max(x ?? 1, 0.2))` shared by
`rebuildFromSources` (line 520) and `normalizeRecord` (line 348). -/
def clampRatio (x : Option Rat) : Rat := min 1 (max (x.getD 1) (1/5))

/-- Cosine similarity (vector-store.service.ts:104-120).  `sqrt` abstracts
JS `Math.sqrt`; all claims proved about this function hold for every
square-root function. -/
def cosineSimilarity (sqrt : Rat → Rat) (a b : List Rat) : Rat :=
  if a.length = 0 || b.length = 0 || a.length != b.length then 0
  else
    let dot := ((a.zip b).map fun p => p.1 * p.2).sum
    let normA := (a.map fun x => x * x).sum
    let normB := (b.map fun x => x * x).sum
    if normA = 0 || normB = 0 then 0
    else dot / (sqrt normA * sqrt normB)

/-! ## Data model (manuals.service.ts:19-80, vector-store.service.ts:7-13) -/

inductive ManualOwnerType where
  | project
  | conversation
  | guest
  deriving DecidableEq, Repr

inductive ManualSourceType where
  | file
  | instruction
  deriving DecidableEq, Repr

structure SourceMetadata where
  size : Nat
  mime : String
  deriving DecidableEq, Repr

structure ManualSource where
  id : String
  type : ManualSourceType
  label : List Char
  text : List Char
  createdAt : String
  metadata : Option SourceMetadata := none
  deriving DecidableEq, Repr

structure ManualCacheRecord where
  manualText : List Char
  chunkCount : Nat
  embeddedChunks : Nat
  fileCount : Nat
  updatedAt : String
  embedRatio : Rat
  sources : List ManualSource
  ownerId : String
  ownerType : ManualOwnerType
  deriving DecidableEq, Repr

structure ManualSummarySource where
  id : String
  type : ManualSourceType
  label : List Char
  createdAt : String
  preview : Option (List Char)
  deriving DecidableEq, Repr

structure ManualSummary where
  fileCount : Nat
  chunkCount : Nat
  embeddedChunks : Nat
  updatedAt : String
  embedRatio : Rat
  sources : List ManualSummarySource
  deriving DecidableEq, Repr

structure ManualStatusPayload where
  hasManual : Bool
  stats : Option ManualSummary := none
  deriving DecidableEq, Repr

structure VectorDocument where
  id : String
  content : List Char
  embedding : List Rat
  deriving DecidableEq, Repr

/-- Ingestion mode (`dto.mode`). -/
inductive IngestMode where
  | append
  | replace
  deriving DecidableEq, Repr

/-- Errors thrown by the service.  An exception raised by the external
embedding collaborator propagates through `rebuildFromSources` unwrapped;
it is modelled as `upstream` carrying the collaborator's message. -/
inductive ServiceError where
  | badRequest (msg : String)
  | notFound (msg : String)
  | upstream (msg : String)
  deriving DecidableEq, Repr

/-- An uploaded file after the (external) text-extraction adapters have run:
`originalname`, extracted text, and the multer metadata recorded in
`createSourcesFromPayload`. -/
structure FileInput where
  originalname : List Char
  text : List Char
  size : Nat
  mime : String
  deriving DecidableEq, Repr

/-- Environment abstracting the external collaborators and sources of
nondeterminism: the embedding collaborator, `randomUUID()` (an indexed id
supply; index = position of the call within the operation), and
`new Date().toISOString()`. -/
structure Env where
  embed : List Char → Except String (List Rat)
  uuid : Nat → String
  now : String

/-- Persistent state: the per-owner manual record file
(`storage/manuals/<ownerId>.json`), the per-owner vector documents
(`storage/vector-store.json`), and the `manuals` metadata table.  Records
are stored fully populated exactly as `persistManual` serializes them;
`readManualFile`'s `normalizeRecord` is the identity on such records (it is
modelled separately, on `PartialRecord`, for records written by older
versions). -/
structure SysState where
  manuals : String → Option ManualCacheRecord
  vectors : String → List VectorDocument
  meta : String → Option (ManualOwnerType × Nat × Nat × Nat × String)

def SysState.empty : SysState :=
  ⟨fun _ => none, fun _ => [], fun _ => none⟩

/-! ## Vector store operations (vector-store.service.ts) -/

/-- Document list built by `replaceDocuments` (vector-store.service.ts:62-68):
`chunks.map((content, idx) => ({id: chunk_idx_uuid, content, embedding:
embeddings[idx]}))`.  A JS out-of-range `embeddings[idx]` is `undefined`;
it is modelled by the `getD` default, unreachable from `rebuildFromSources`
where both lists have equal length. -/
def buildDocuments (uuid : Nat → String) (embeddings : List (List Rat)) :
    Nat → List (List Char) → List VectorDocument
  | _, [] => []
  | idx, content :: rest =>
    ⟨"chunk_" ++ toString idx ++ "_" ++ uuid idx, content, embeddings.getD idx []⟩ ::
      buildDocuments uuid embeddings (idx + 1) rest

/-- `replaceDocuments` (vector-store.service.ts:57-70): overwrite the
owner's document list and persist. -/
def replaceDocuments (env : Env) (conversationId : String)
    (chunks : List (List Char)) (embeddings : List (List Rat))
    (σ : SysState) : SysState :=
  { σ with vectors := fun o =>
      if o = conversationId then buildDocuments env.uuid embeddings 0 chunks
      else σ.vectors o }

/-- `clearDocuments` of the vector store, as called by `deleteManual`. -/
def clearDocuments (conversationId : String) (σ : SysState) : SysState :=
  { σ with vectors := fun o => if o = conversationId then [] else σ.vectors o }

/-- Stable insertion of a scored document into a descending-sorted list;
together with `sortByScoreDesc` this models the stable JS
`sort((a, b) => b.score - a.score)`. -/
def insertByScoreDesc (x : VectorDocument × Rat) :
    List (VectorDocument × Rat) → List (VectorDocument × Rat)
  | [] => [x]
  | y :: ys => if x.2 ≤ y.2 then y :: insertByScoreDesc x ys else x :: y :: ys

def sortByScoreDesc : List (VectorDocument × Rat) → List (VectorDocument × Rat)
  | [] => []
  | x :: xs => insertByScoreDesc x (sortByScoreDesc xs)

/-- `queryByEmbedding` (vector-store.service.ts:83-101). -/
def queryByEmbedding (sqrt : Rat → Rat) (σ : SysState) (conversationId : String)
    (queryEmbedding : List Rat) (topK : Nat := 3) : List VectorDocument :=
  let documents := σ.vectors conversationId
  if queryEmbedding.length = 0 || documents.length = 0 then []
  else
    ((sortByScoreDesc (documents.map fun doc =>
        (doc, cosineSimilarity sqrt queryEmbedding doc.embedding))).take topK).map
      Prod.fst

/-! ## Manuals service: pure helpers (manuals.service.ts) -/

/-- `flattenSources` (manuals.service.ts:491-498): each source becomes
`=== header ===\n` followed by its trimmed text, the blocks joined by a
blank line; an empty label falls back to `Instruction`/`File`. -/
def flattenSources (sources : List ManualSource) : List Char :=
  ((sources.map fun source =>
      let header :=
        if source.label.isEmpty then
          (if source.type = ManualSourceType.instruction then "Instruction".data
           else "File".data)
        else source.label
      "=== ".data ++ header ++ " ===\n".data ++ jsTrim source.text).intersperse
    "\n\n".data).flatten

/-- `mapSourcesToSummary` (manuals.service.ts:384-395): instruction sources
get a preview of the first 200 characters, file sources none. -/
def mapSourcesToSummary (sources : List ManualSource) : List ManualSummarySource :=
  sources.map fun source =>
    ⟨source.id, source.type, source.label, source.createdAt,
      if source.type = ManualSourceType.instruction then some (source.text.take 200)
      else none⟩

/-- `toSummary` (manuals.service.ts:373-382). -/
def toSummary (record : ManualCacheRecord) : ManualSummary :=
  ⟨record.fileCount, record.chunkCount, record.embeddedChunks,
    record.updatedAt, record.embedRatio, mapSourcesToSummary record.sources⟩

/-- `createSourcesFromPayload` (manuals.service.ts:452-489) after the
external text extraction: files whose extracted text trims to empty are
skipped with a warning; a non-empty instruction text appends one
instruction source labelled `사용자 프롬프트`.  Each retained entry calls
`randomUUID()`, modelled by the id supply at the entry's position. -/
def createSourcesFromPayload (env : Env) (files : List FileInput)
    (instructionText : Option (List Char)) : List ManualSource :=
  let attachments := files.enum.filterMap fun p =>
    if (jsTrim p.2.text).isEmpty then none
    else some (⟨env.uuid p.1, ManualSourceType.file, p.2.originalname, p.2.text,
      env.now, some ⟨p.2.size, p.2.mime⟩⟩ : ManualSource)
  match instructionText with
  | some instr =>
    if (jsTrim instr).isEmpty then attachments
    else attachments ++
      [⟨env.uuid files.length, ManualSourceType.instruction,
        "사용자 프롬프트".data, jsTrim instr, env.now, none⟩]
  | none => attachments

/-! ## Legacy reconstruction (manuals.service.ts:397-450)

The header regex is `/^===\s*(.+?)\s*===\s*$/gm`.  It is modelled
line-by-line: a match starts with `===` at the beginning of a line and its
closing `===` must be followed only by whitespace up to the end of the
line, which determines the closing position uniquely.  The greedy trailing
`\s*$` of the regex may additionally swallow whitespace (including the
line's newline); since every use of the match end goes through
`slice(...).trim()`, taking the match length to be the header line's
length is extensionally equivalent. -/

/-- ASCII lowercasing, modelling `toLowerCase` on the inputs considered
here (the Korean token `프롬프트` is unaffected by lowercasing). -/
def toLowerCh (c : Char) : Char :=
  if 'A' ≤ c ∧ c ≤ 'Z' then Char.ofNat (c.toNat + 32) else c

/-- List version of `startsWith`. -/
def startsWithL : List Char → List Char → Bool
  | [], _ => true
  | _ :: _, [] => false
  | p :: ps, c :: cs => p = c && startsWithL ps cs

/-- Model of JS `String.prototype.includes`. -/
def containsL (pat : List Char) : List Char → Bool
  | [] => startsWithL pat []
  | c :: cs => startsWithL pat (c :: cs) || containsL pat cs

/-- Split a text into its lines (separator `\n`, not kept). -/
def splitLinesChar (l : List Char) : List (List Char) :=
  l.foldr
    (fun c acc =>
      if c = '\n' then [] :: acc
      else match acc with
        | [] => [[c]]
        | a :: as => (c :: a) :: as)
    [[]]

/-- Attach the start offset of each line within the original text. -/
def linesWith : List (List Char) → Nat → List (Nat × List Char)
  | [], _ => []
  | l :: ls, pos => (pos, l) :: linesWith ls (pos + l.length + 1)

/-- List version of `endsWith`. -/
def endsWithL (pat s : List Char) : Bool := startsWithL pat.reverse s.reverse

/-- Whether a single line matches `^===\s*(.+?)\s*===\s*$`, returning the
raw capture group (still carrying surrounding whitespace that the caller's
`.trim()` removes; the engine's `\s*` delimiters around the lazy group and
the `.trim()` applied to `match[1]` yield the same trimmed label).  The
closing `===` is the unique occurrence followed only by whitespace before
the end of the line; the group must be non-empty (`.+?`). -/
def lineHeaderLabel (line : List Char) : Option (List Char) :=
  if startsWithL "===".data line then
    let core := trimRight (line.drop 3)
    if endsWithL "===".data core && decide (4 ≤ core.length) then
      some (core.take (core.length - 3))
    else none
  else none

/-- All header-line matches of the regex, with their index (line start
offset), match length (line length) and capture group. -/
def headerMatches (manualText : List Char) : List (Nat × Nat × List Char) :=
  (linesWith (splitLinesChar manualText) 0).filterMap fun p =>
    (lineHeaderLabel p.2).map fun label => (p.1, p.2.length, label)

/-- Body of the `matches.forEach` loop of
`reconstructSourcesFromManualText` (manuals.service.ts:416-435), for the
match at enumeration index `p.1`: compute the trimmed header, slice the
section up to the next match (or the end of the text), skip it when the
trimmed section is empty, and otherwise classify it as instruction when the
lowercased header contains `프롬프트`/`prompt`/`instruction`. -/
def reconstructMatchSource (uuid : Nat → String) (manualText : List Char)
    (updatedAt : String) (ms : List (Nat × Nat × List Char))
    (p : Nat × Nat × Nat × List Char) : Option ManualSource :=
  let header := jsTrim p.2.2.2
  let start : Int := (p.2.1 : Int) + (p.2.2.1 : Int)
  let stop : Int := match ms.get? (p.1 + 1) with
    | some m2 => (m2.1 : Int)
    | none => (manualText.length : Int)
  let sectionText := jsTrim (jsSlice manualText start stop)
  if sectionText.isEmpty then none
  else
    let normalizedHeader := header.map toLowerCh
    let type :=
      if containsL "프롬프트".data normalizedHeader ||
          containsL "prompt".data normalizedHeader ||
          containsL "instruction".data normalizedHeader then
        ManualSourceType.instruction
      else ManualSourceType.file
    some (⟨uuid p.1, type, header, sectionText, updatedAt, none⟩ : ManualSource)

/-- `reconstructSourcesFromManualText` (manuals.service.ts:397-450).
`randomUUID()` is modelled by the id supply at the match index (ids are
opaque and never compared across reconstructions). -/
def reconstructSourcesFromManualText (uuid : Nat → String)
    (manualText : List Char) (updatedAt : String) : List ManualSource :=
  let ms := headerMatches manualText
  if ms.isEmpty then
    [⟨uuid 0, ManualSourceType.instruction, "기존 매뉴얼".data, manualText,
      updatedAt, none⟩]
  else
    let sources :=
      ms.enum.filterMap (reconstructMatchSource uuid manualText updatedAt ms)
    if sources.isEmpty then
      [⟨uuid 0, ManualSourceType.instruction, "기존 매뉴얼".data, manualText,
        updatedAt, none⟩]
    else sources

/-! ## Reading persisted records (manuals.service.ts:323-371) -/

/-- A source as parsed from a persisted JSON file, where `id`/`createdAt`
may be absent (legacy records). -/
structure PartialSource where
  id : Option String
  type : ManualSourceType
  label : List Char
  text : List Char
  createdAt : Option String
  metadata : Option SourceMetadata := none
  deriving DecidableEq, Repr

/-- A record as parsed from a persisted JSON file
(`Partial<ManualCacheRecord>`): every field may be absent. -/
structure PartialRecord where
  manualText : Option (List Char) := none
  chunkCount : Option Nat := none
  embeddedChunks : Option Nat := none
  fileCount : Option Nat := none
  updatedAt : Option String := none
  embedRatio : Option Rat := none
  sources : Option (List PartialSource) := none
  ownerType : Option ManualOwnerType := none
  deriving DecidableEq, Repr

/-- `normalizeRecord` (manuals.service.ts:340-371).  `uuid`/`now` model the
`randomUUID()` and `new Date().toISOString()` calls (the id supply indexed
by source position). -/
def normalizeRecord (uuid : Nat → String) (now : String)
    (raw : Option PartialRecord) (ownerId : String)
    (defaultOwnerType : ManualOwnerType) : Option ManualCacheRecord :=
  match raw with
  | none => none
  | some raw =>
    match raw.manualText with
    | none => none
    | some manualText =>
      if (jsTrim manualText).isEmpty then none
      else
        let embedRatio := clampRatio raw.embedRatio
        let sources :=
          match raw.sources with
          | some (s :: ss) =>
            ((s :: ss).enum).map fun p =>
              (⟨p.2.id.getD (uuid p.1), p.2.type, p.2.label, p.2.text,
                p.2.createdAt.getD (raw.updatedAt.getD now),
                p.2.metadata⟩ : ManualSource)
          | _ =>
            reconstructSourcesFromManualText uuid manualText
              (raw.updatedAt.getD now)
        some
          { manualText := manualText
            chunkCount := raw.chunkCount.getD 0
            embeddedChunks := raw.embeddedChunks.getD 0
            fileCount := raw.fileCount.getD
              ((sources.filter fun s => s.type = ManualSourceType.file).length)
            updatedAt := raw.updatedAt.getD now
            embedRatio := embedRatio
            sources := sources
            ownerId := ownerId
            ownerType := raw.ownerType.getD defaultOwnerType }

/-! ## Stateful operations (manuals.service.ts) -/

/-- `persistManual` (manuals.service.ts:271-274). -/
def persistManual (ownerId : String) (record : ManualCacheRecord)
    (σ : SysState) : SysState :=
  { σ with manuals := fun o => if o = ownerId then some record else σ.manuals o }

/-- `persistMetadata` (manuals.service.ts:276-304): upsert into the
`manuals` table. -/
def persistMetadata (ownerId : String) (ownerType : ManualOwnerType)
    (record : ManualCacheRecord) (σ : SysState) : SysState :=
  { σ with meta := fun o =>
      if o = ownerId then
        some (ownerType, record.fileCount, record.chunkCount,
          record.embeddedChunks, record.updatedAt)
      else σ.meta o }

/-- `deleteManual` (manuals.service.ts:306-321): unlink the record file,
clear the owner's vector documents, delete the metadata row. -/
def deleteManual (ownerId : String) (σ : SysState) : SysState :=
  let σ₁ := { σ with manuals := fun o => if o = ownerId then none else σ.manuals o }
  let σ₂ := clearDocuments ownerId σ₁
  { σ₂ with meta := fun o => if o = ownerId then none else σ₂.meta o }

/-- `Promise.all(targetChunks.map(chunk => embed(chunk)))`: all embeddings,
failing if any call fails. -/
def embedAll (env : Env) : List (List Char) → Except String (List (List Rat))
  | [] => Except.ok []
  | c :: cs =>
    match env.embed c, embedAll env cs with
    | Except.error e, _ => Except.error e
    | Except.ok _, Except.error e => Except.error e
    | Except.ok v, Except.ok vs => Except.ok (v :: vs)

/-- `rebuildFromSources` (manuals.service.ts:500-547).  Returns the result
(summary or thrown error) together with the post-state; every early exit
returns the input state unchanged. -/
def rebuildFromSources (env : Env) (ownerId : String)
    (ownerType : ManualOwnerType) (sources : List ManualSource)
    (embedRatioInput : Option Rat) (σ : SysState) :
    Except ServiceError ManualSummary × SysState :=
  if sources.isEmpty then
    (Except.error (ServiceError.badRequest "업로드할 수 있는 자료가 없습니다."), σ)
  else
    let manualText := flattenSources sources
    if (jsTrim manualText).isEmpty then
      (Except.error (ServiceError.badRequest "추출된 텍스트가 비어 있습니다."), σ)
    else
      let chunks := chunkText manualText
      if chunks.isEmpty then
        (Except.error (ServiceError.badRequest "텍스트 분할에 실패했습니다."), σ)
      else
        let embedRatio := clampRatio embedRatioInput
        let chunkLimit := (max 1 (jsRound (chunks.length * embedRatio))).toNat
        let targetChunks := chunks.take chunkLimit
        match embedAll env targetChunks with
        | Except.error e => (Except.error (ServiceError.upstream e), σ)
        | Except.ok embeddings =>
          let σ₁ := replaceDocuments env ownerId targetChunks embeddings σ
          let record : ManualCacheRecord :=
            { manualText := manualText
              chunkCount := chunks.length
              embeddedChunks := targetChunks.length
              fileCount :=
                (sources.filter fun s => s.type = ManualSourceType.file).length
              updatedAt := env.now
              embedRatio := embedRatio
              sources := sources
              ownerId := ownerId
              ownerType := ownerType }
          let σ₂ := persistManual ownerId record σ₁
          let σ₃ := persistMetadata ownerId ownerType record σ₂
          (Except.ok (toSummary record), σ₃)

/-- The tail of `ingestInternal` (manuals.service.ts:248-268) after the
awaited `readManualFile`: build the uploaded sources, merge, check
emptiness, rebuild.  Factored out so that the suspension point after the
read is explicit. -/
def ingestInternalRest (env : Env) (ownerId : String)
    (ownerType : ManualOwnerType) (existingSources : List ManualSource)
    (files : List FileInput) (instructionText : Option (List Char))
    (embedRatio : Rat) (σ : SysState) :
    Except ServiceError ManualSummary × SysState :=
  let uploadedSources := createSourcesFromPayload env files instructionText
  let mergedSources := existingSources ++ uploadedSources
  if mergedSources.isEmpty then
    (Except.error (ServiceError.badRequest "Please upload a file or add instructions."), σ)
  else
    rebuildFromSources env ownerId ownerType mergedSources (some embedRatio) σ

/-- `ingestInternal` (manuals.service.ts:237-269), run atomically (read and
rebuild not interleaved with another request). -/
def ingestInternal (env : Env) (ownerId : String)
    (ownerType : ManualOwnerType) (files : List FileInput)
    (embedRatio : Rat) (instructionText : Option (List Char))
    (dtoMode : Option IngestMode) (σ : SysState) :
    Except ServiceError ManualSummary × SysState :=
  let mode := if dtoMode = some IngestMode.replace then IngestMode.replace
    else IngestMode.append
  let existingRecord :=
    if mode = IngestMode.append then σ.manuals ownerId else none
  let existingSources :=
    match existingRecord with
    | some record => record.sources
    | none => []
  ingestInternalRest env ownerId ownerType existingSources files
    instructionText embedRatio σ

/-- `removeSource` (manuals.service.ts:187-222). -/
def removeSource (env : Env) (ownerId sourceId : String)
    (ownerType : ManualOwnerType) (σ : SysState) :
    Except ServiceError ManualStatusPayload × SysState :=
  if (jsTrim ownerId.data).isEmpty then
    (Except.error (ServiceError.badRequest "ownerId is required."), σ)
  else if (jsTrim sourceId.data).isEmpty then
    (Except.error (ServiceError.badRequest "sourceId is required."), σ)
  else
    match σ.manuals ownerId with
    | none => (Except.error (ServiceError.notFound "삭제할 자료가 없습니다."), σ)
    | some record =>
      let remainingSources := record.sources.filter fun s => s.id ≠ sourceId
      if remainingSources.length = record.sources.length then
        (Except.error (ServiceError.notFound "요청한 자료를 찾을 수 없습니다."), σ)
      else if remainingSources.isEmpty then
        (Except.ok ⟨false, none⟩, deleteManual ownerId σ)
      else
        match rebuildFromSources env ownerId ownerType remainingSources
            (some record.embedRatio) σ with
        | (Except.error e, σ') => (Except.error e, σ')
        | (Except.ok stats, σ') => (Except.ok ⟨true, some stats⟩, σ')

/-- `getManualStatus` (manuals.service.ts:173-185): side-effect-free status
read. -/
def getManualStatus (σ : SysState) (ownerId : String) : ManualStatusPayload :=
  match σ.manuals ownerId with
  | none => ⟨false, none⟩
  | some record => ⟨true, some (toSummary record)⟩

/-- The `ManualCacheRecord` that `rebuildFromSources` builds at
manuals.service.ts:531-541 when it reaches the persisting step (same
`let`-bindings as in `rebuildFromSources`). -/
def rebuildRecord (env : Env) (ownerId : String) (ownerType : ManualOwnerType)
    (sources : List ManualSource) (embedRatioInput : Option Rat) :
    ManualCacheRecord :=
  let manualText := flattenSources sources
  let chunks := chunkText manualText
  let embedRatio := clampRatio embedRatioInput
  let chunkLimit := (max 1 (jsRound (chunks.length * embedRatio))).toNat
  { manualText := manualText
    chunkCount := chunks.length
    embeddedChunks := (chunks.take chunkLimit).length
    fileCount := (sources.filter fun s => s.type = ManualSourceType.file).length
    updatedAt := env.now
    embedRatio := embedRatio
    sources := sources
    ownerId := ownerId
    ownerType := ownerType }

/-! ## Concrete fixtures used by the witness instances -/

/-- An environment whose embedding collaborator always succeeds. -/
def envW : Env :=
  ⟨fun _ => Except.ok [1, 0], fun n => "uuid-" ++ toString n,
    "2026-01-01T00:00:00.000Z"⟩

/-- An environment whose embedding collaborator always fails. -/
def envFailW : Env :=
  ⟨fun _ => Except.error "embedding collaborator timed out",
    fun n => "uuid-" ++ toString n, "2026-01-01T00:00:00.000Z"⟩

def srcW : ManualSource :=
  ⟨"src-1", ManualSourceType.file, "guide.txt".data, "hello world".data,
    "2026-01-01T00:00:00.000Z", none⟩

def srcW2 : ManualSource :=
  ⟨"src-2", ManualSourceType.instruction, "notes".data, "be polite".data,
    "2026-01-01T00:00:00.000Z", none⟩

def fileW : FileInput := ⟨"a.txt".data, "alpha body".data, 10, "text/plain"⟩

def fileW2 : FileInput := ⟨"b.txt".data, "beta body".data, 9, "text/plain"⟩

def recW : ManualCacheRecord :=
  ⟨"=== guide.txt ===\nhello world".data, 1, 1, 1,
    "2026-01-01T00:00:00.000Z", 1, [srcW], "o", ManualOwnerType.project⟩

/-- A state in which owner `"o"` already has a persisted record. -/
def stateW : SysState := persistManual "o" recW SysState.empty

/-- A legacy persisted record: no `sources` list, an out-of-range
`embedRatio` of `5`. -/
def prawW : PartialRecord :=
  { manualText := some "legacy text".data
    embedRatio := some 5
    updatedAt := none }

/-- The record `normalizeRecord` produces from `prawW` (id supply
`toString`, now `"T"`). -/
def recNormW : ManualCacheRecord :=
  { manualText := "legacy text".data
    chunkCount := 0
    embeddedChunks := 0
    fileCount := 0
    updatedAt := "T"
    embedRatio := clampRatio (some 5)
    sources := [⟨"0", ManualSourceType.instruction, "기존 매뉴얼".data,
      "legacy text".data, "T", none⟩]
    ownerId := "o"
    ownerType := ManualOwnerType.project }

/-- Total size in characters that a list of lines occupies in the original
text (each line plus its separating newline). -/
def linesSize (ls : List (List Char)) : Nat := (ls.map fun l => l.length + 1).sum

/-! ## Basic lemmas about the text primitives -/

lemma jsTrim_nil : jsTrim [] = [] := rfl

lemma jsTrim_cons_ne {c : Char} (l : List Char) (hc : isJsWs c = false) :
    jsTrim (c :: l) ≠ [] := by
  unfold jsTrim trimLeft trimRight
  rw [List.dropWhile_cons, if_neg (by simp [hc])]
  intro h
  have h' : List.dropWhile isJsWs (c :: l).reverse = [] := by
    have := congrArg List.reverse h
    simpa using this
  rw [List.dropWhile_eq_nil_iff] at h'
  have := h' c (by simp)
  simp [hc] at this

/-- Unfolding equation for one iteration of the chunking loop. -/
lemma chunkTextLoop_succ (text : List Char) (cs ov : Int) (fuel : Nat)
    (start : Int) :
    chunkTextLoop text cs ov (fuel + 1) start =
      if start < (text.length : Int) then
        match chunkTextLoop text cs ov fuel (start + cs - ov) with
        | none => none
        | some rest =>
          some (if (jsTrim (jsSlice text start (start + cs))).isEmpty then rest
            else jsTrim (jsSlice text start (start + cs)) :: rest)
      else some [] := rfl

/-- `slice(0, e)` returns the whole string when `e` reaches past its end. -/
lemma jsSlice_zero_full (l : List Char) (e : Int) (he : (l.length : Int) ≤ e) :
    jsSlice l 0 e = l := by
  have h0 : (0 : Int) ≤ (l.length : Int) := by positivity
  unfold jsSlice
  dsimp only
  rw [if_neg (by omega), if_neg (by omega)]
  have h1 : ((0 : Int) ⊓ (l.length : Int)).toNat = 0 := by omega
  have h2 : ((e : Int) ⊓ (l.length : Int)).toNat = l.length := by omega
  rw [h1, h2]
  simp

/-! ## Claim C6: chunking of short texts -/

set_option maxRecDepth 40000 in
/-- Claim C6 as stated is false: a 701-character text is shorter than the
window size 800, trims to itself (non-empty), yet chunking produces two
chunks, not one — the loop takes a second window at offset
`800 - 100 = 700`, which still lies inside the text. -/
theorem claim_C6_counterexample :
    (List.replicate 701 'a').length < 800 ∧
      jsTrim (List.replicate 701 'a') ≠ [] ∧
      chunkText (List.replicate 701 'a') ≠ [jsTrim (List.replicate 701 'a')] ∧
      (chunkText (List.replicate 701 'a')).length = 2 := by
  refine ⟨by decide, by decide, by decide, by decide⟩

/-- Claim C6 (amended): for every text whose length is at most
`windowSize − overlap = 700` and whose trimmed form is non-empty, chunking
produces exactly one chunk equal to `trim(text)`; and chunking is
deterministic — repeated calls on the same input produce the same output. -/
theorem claim_C6 (text : List Char) (h1 : jsTrim text ≠ [])
    (h2 : text.length ≤ 700) :
    chunkText text = [jsTrim text] ∧ chunkText text = chunkText text := by
  refine ⟨?_, rfl⟩
  have hpos : 0 < text.length := by
    cases text with
    | nil => exact absurd jsTrim_nil h1
    | cons c l => simp
  obtain ⟨m, hm⟩ : ∃ m, text.length = m + 1 := ⟨text.length - 1, by omega⟩
  have hinner :
      chunkTextLoop text 800 100 (m + 1) ((0 : Int) + 800 - 100) = some [] := by
    rw [chunkTextLoop_succ, if_neg (by push_cast; omega)]
  have hslice : jsSlice text 0 ((0 : Int) + 800) = text :=
    jsSlice_zero_full text ((0 : Int) + 800) (by omega)
  have hne : (jsTrim (jsSlice text 0 ((0 : Int) + 800))).isEmpty = false := by
    rw [hslice]
    cases h : jsTrim text with
    | nil => exact absurd h h1
    | cons c l => rfl
  have houter :
      chunkTextLoop text 800 100 (text.length + 1) 0 = some [jsTrim text] := by
    rw [hm]
    show chunkTextLoop text 800 100 (m + 1 + 1) 0 = some [jsTrim text]
    rw [chunkTextLoop_succ, if_pos (by exact_mod_cast by omega : (0 : Int) < text.length), hinner]
    dsimp only
    rw [hne]
    have hslice2 : jsSlice text 0 800 = text :=
      jsSlice_zero_full text 800 (by omega)
    simp [hslice, hslice2]
  unfold chunkText
  rw [houter]
  rfl

/-- Closed instance of the amended C6 at the concrete text `"hi"`. -/
theorem claim_C6_witness : chunkText "hi".data = [jsTrim "hi".data] :=
  (claim_C6 "hi".data (by decide) (by decide)).1

/-! ## Claim C7: termination of the chunking loop -/

/-- Claim C7 is false of the code: the loop body has no minimum-advance
guard (`start = end - overlap` at manuals.service.ts:614), so with
`overlap = chunkSize = 1` the offset never advances and the `while` loop at
line 608 never exits.  Formally: on the two-character text `"aa"` no amount
of fuel makes the loop model reach the loop exit. -/
theorem claim_C7 : ∀ fuel : Nat, chunkTextLoop "aa".data 1 1 fuel 0 = none := by
  intro fuel
  induction fuel with
  | zero => rfl
  | succ n ih =>
    simp only [chunkTextLoop]
    rw [if_pos (by decide)]
    have h01 : (0 : Int) + 1 - 1 = 0 := by decide
    rw [h01, ih]

/-! ## Claim C8: retrieval totality -/

lemma sum_sq_eq_zero {a : List Rat} (h : ∀ x ∈ a, x = 0) :
    (a.map fun x => x * x).sum = 0 := by
  apply List.sum_eq_zero
  intro y hy
  obtain ⟨x, hx, rfl⟩ := List.mem_map.mp hy
  rw [h x hx, mul_zero]

/-- Claim C8: retrieval is total — cosine similarity involving a
zero-length or all-zero vector is 0 (the guards at
vector-store.service.ts:105 and 116 return before any division), and a
query against an owner with no stored documents, or with an empty query
embedding, returns the empty list rather than an error
(vector-store.service.ts:89-91). -/
theorem claim_C8 (sqrt : Rat → Rat) (a b : List Rat) (σ : SysState)
    (cid : String) (q : List Rat) (k : Nat) :
    ((a = [] ∨ b = [] ∨ (∀ x ∈ a, x = 0) ∨ (∀ x ∈ b, x = 0)) →
      cosineSimilarity sqrt a b = 0) ∧
    (σ.vectors cid = [] → queryByEmbedding sqrt σ cid q k = []) ∧
    (q = [] → queryByEmbedding sqrt σ cid q k = []) := by
  refine ⟨?_, ?_, ?_⟩
  · rintro (rfl | rfl | h | h)
    · simp [cosineSimilarity]
    · simp [cosineSimilarity]
    · unfold cosineSimilarity
      split
      · rfl
      · rw [if_pos]
        simp [sum_sq_eq_zero h]
    · unfold cosineSimilarity
      split
      · rfl
      · rw [if_pos]
        simp [sum_sq_eq_zero h]
  · intro h
    unfold queryByEmbedding
    rw [h]
    simp
  · rintro rfl
    unfold queryByEmbedding
    simp

/-- Closed instance of C8: an all-zero vector against a non-zero one, and a
query on an empty store. -/
theorem claim_C8_witness :
    cosineSimilarity id [0, 0] [3, 4] = 0 ∧
      queryByEmbedding id SysState.empty "owner" [1] 3 = [] := by
  refine ⟨?_, ?_⟩
  · exact (claim_C8 id [0, 0] [3, 4] SysState.empty "owner" [1] 3).1
      (Or.inr (Or.inr (Or.inl (by decide))))
  · exact (claim_C8 id [0, 0] [3, 4] SysState.empty "owner" [1] 3).2.1 rfl

/-! ## Lemmas about the rebuild pipeline -/

lemma clampRatio_mem (x : Option Rat) :
    1/5 ≤ clampRatio x ∧ clampRatio x ≤ 1 := by
  constructor
  · exact le_min (by norm_num) (le_max_right _ _)
  · exact min_le_left _ _

/-- A flattened non-empty source list starts with the `===` of its first
header. -/
lemma flattenSources_cons (s : ManualSource) (ss : List ManualSource) :
    ∃ l, flattenSources (s :: ss) = '=' :: l := by
  cases ss with
  | nil => exact ⟨_, rfl⟩
  | cons t ts => exact ⟨_, rfl⟩

lemma flatten_trim_isEmpty_false (sources : List ManualSource)
    (hs : sources ≠ []) :
    (jsTrim (flattenSources sources)).isEmpty = false := by
  cases sources with
  | nil => exact absurd rfl hs
  | cons s ss =>
    obtain ⟨l, hl⟩ := flattenSources_cons s ss
    rw [hl]
    cases h : jsTrim ('=' :: l) with
    | nil => exact absurd h (jsTrim_cons_ne l (by decide))
    | cons c cs => rfl

/-- `slice(0, e)` for non-negative `e` is `take`. -/
lemma jsSlice_zero_take (l : List Char) (e : Int) (he : 0 ≤ e) :
    jsSlice l 0 e = l.take e.toNat := by
  unfold jsSlice
  dsimp only
  rw [if_neg (by omega), if_neg (by omega)]
  have h1 : ((0 : Int) ⊓ (l.length : Int)).toNat = 0 := by omega
  rw [h1]
  rcases le_or_lt e (l.length : Int) with h | h
  · have h2 : ((e : Int) ⊓ (l.length : Int)).toNat = e.toNat := by omega
    simp [h2]
  · have h2 : ((e : Int) ⊓ (l.length : Int)).toNat = l.length := by omega
    rw [h2]
    simp only [Nat.sub_zero, List.drop_zero]
    rw [List.take_length, List.take_of_length_le (by omega)]

/-- With the default parameters the loop advances by `700` per iteration,
so fuel `text.length + 1` always suffices. -/
lemma chunkTextLoop_defaults_some (text : List Char) :
    ∀ (fuel : Nat) (start : Int), 1 ≤ fuel →
      (text.length : Int) + 700 ≤ start + 700 * fuel →
      ∃ r, chunkTextLoop text 800 100 fuel start = some r := by
  intro fuel
  induction fuel with
  | zero => intro start h1 _; omega
  | succ f ih =>
    intro start _ hbound
    by_cases hlt : start < (text.length : Int)
    · have hf : 1 ≤ f := by
        by_contra hf0
        have : f = 0 := by omega
        subst this
        push_cast at hbound
        omega
      obtain ⟨r, hr⟩ := ih (start + 800 - 100) hf (by push_cast at hbound ⊢; omega)
      rw [chunkTextLoop_succ, if_pos hlt, hr]
      exact ⟨_, rfl⟩
    · rw [chunkTextLoop_succ, if_neg hlt]
      exact ⟨[], rfl⟩

/-- The fuel `text.length + 1` chosen in `chunkText` never runs out. -/
lemma chunkText_some (text : List Char) :
    chunkTextLoop text 800 100 (text.length + 1) 0 = some (chunkText text) := by
  obtain ⟨r, hr⟩ := chunkTextLoop_defaults_some text (text.length + 1) 0
    (by omega) (by push_cast; nlinarith [Nat.zero_le text.length])
  have h2 : chunkText text = r := by
    unfold chunkText
    rw [hr]
    rfl
  rw [h2]
  exact hr

/-- A text whose first character is not whitespace chunks to a non-empty
list (its first window trims to a non-empty chunk). -/
lemma chunkText_cons_ne (c : Char) (rest : List Char)
    (hc : isJsWs c = false) : chunkText (c :: rest) ≠ [] := by
  have hsome := chunkText_some (c :: rest)
  have hlen : ((c :: rest).length : Int) = rest.length + 1 := by
    rw [List.length_cons]
    push_cast
    ring
  rw [show (c :: rest).length + 1 = rest.length + 1 + 1 from by simp] at hsome
  rw [chunkTextLoop_succ, if_pos (by rw [hlen]; omega)] at hsome
  have hslice : jsSlice (c :: rest) 0 ((0 : Int) + 800) = c :: rest.take 799 := by
    rw [jsSlice_zero_take _ _ (by omega)]
    have h800 : ((0 : Int) + 800).toNat = 799 + 1 := by decide
    rw [h800, List.take_succ_cons]
  have hchunk : jsTrim (jsSlice (c :: rest) 0 ((0 : Int) + 800)) ≠ [] := by
    rw [hslice]
    exact jsTrim_cons_ne _ hc
  cases hloop : chunkTextLoop (c :: rest) 800 100 (rest.length + 1)
      ((0 : Int) + 800 - 100) with
  | none => rw [hloop] at hsome; exact absurd hsome (by simp)
  | some r2 =>
    rw [hloop] at hsome
    dsimp only at hsome
    have hie : (jsTrim (jsSlice (c :: rest) 0 ((0 : Int) + 800))).isEmpty = false := by
      cases hh : jsTrim (jsSlice (c :: rest) 0 ((0 : Int) + 800)) with
      | nil => exact absurd hh hchunk
      | cons x xs => rfl
    rw [hie] at hsome
    simp only [Bool.false_eq_true, if_false] at hsome
    have : chunkText (c :: rest) = jsTrim (jsSlice (c :: rest) 0 ((0 : Int) + 800)) :: r2 := by
      exact (Option.some_injective _ hsome).symm
    rw [this]
    simp

lemma chunkText_flatten_ne (sources : List ManualSource) (hs : sources ≠ []) :
    chunkText (flattenSources sources) ≠ [] := by
  cases sources with
  | nil => exact absurd rfl hs
  | cons s ss =>
    obtain ⟨l, hl⟩ := flattenSources_cons s ss
    rw [hl]
    exact chunkText_cons_ne '=' l (by decide)

lemma embedAll_total (env : Env) (he : ∀ c, ∃ v, env.embed c = Except.ok v) :
    ∀ l, ∃ vs, embedAll env l = Except.ok vs := by
  intro l
  induction l with
  | nil => exact ⟨[], rfl⟩
  | cons c cs ih =>
    obtain ⟨v, hv⟩ := he c
    obtain ⟨vs, hvs⟩ := ih
    exact ⟨v :: vs, by unfold embedAll; rw [hv, hvs]⟩

lemma buildDocuments_contents (uuid : Nat → String)
    (embeddings : List (List Rat)) :
    ∀ (i : Nat) (chunks : List (List Char)),
      (buildDocuments uuid embeddings i chunks).map (fun d => d.content) = chunks := by
  intro i chunks
  induction chunks generalizing i with
  | nil => rfl
  | cons c cs ih => simp [buildDocuments, ih]

/-- The selection size `max(1, round(n × ratio))` never exceeds `n` when
the ratio is at most 1 and `n ≥ 1`. -/
lemma chunkLimit_le (n : Nat) (r : Rat) (hn : 1 ≤ n) (hr : r ≤ 1) :
    (max 1 (jsRound (n * r))).toNat ≤ n := by
  have hmul : (n : Rat) * r ≤ (n : Rat) := by
    calc (n : Rat) * r ≤ (n : Rat) * 1 :=
      mul_le_mul_of_nonneg_left hr (by positivity)
    _ = (n : Rat) := mul_one _
  have hfloor : jsRound ((n : Rat) * r) ≤ (n : Int) := by
    unfold jsRound
    have h1 : ((n : Rat) * r + 1/2) ≤ ((n : Int) : Rat) + 1/2 := by push_cast; linarith
    calc ⌊(n : Rat) * r + 1/2⌋ ≤ ⌊((n : Int) : Rat) + 1/2⌋ := Int.floor_le_floor h1
    _ = (n : Int) + ⌊(1/2 : Rat)⌋ := by rw [Int.floor_int_add]
    _ = (n : Int) := by norm_num [Int.floor_eq_zero_iff]
  have hmax : max 1 (jsRound ((n : Rat) * r)) ≤ (n : Int) := by
    rw [max_le_iff]
    exact ⟨by exact_mod_cast hn, hfloor⟩
  omega

/-- Full characterization of a successful rebuild: when the source list is
non-empty and the embedding collaborator succeeds on every input, the
rebuild returns the summary of `rebuildRecord` and the post-state replaces
the owner's vector documents with the embedded prefix, persists the record,
and upserts the metadata row — all in one step. -/
lemma rebuild_ok (env : Env) (ownerId : String) (ownerType : ManualOwnerType)
    (sources : List ManualSource) (ρ : Option Rat) (σ : SysState)
    (hs : sources ≠ []) (he : ∀ c, ∃ v, env.embed c = Except.ok v) :
    ∃ embeddings,
      embedAll env ((chunkText (flattenSources sources)).take
        ((max 1 (jsRound ((chunkText (flattenSources sources)).length *
          clampRatio ρ))).toNat)) = Except.ok embeddings ∧
      rebuildFromSources env ownerId ownerType sources ρ σ =
        (Except.ok (toSummary (rebuildRecord env ownerId ownerType sources ρ)),
          persistMetadata ownerId ownerType
            (rebuildRecord env ownerId ownerType sources ρ)
            (persistManual ownerId (rebuildRecord env ownerId ownerType sources ρ)
              (replaceDocuments env ownerId
                ((chunkText (flattenSources sources)).take
                  ((max 1 (jsRound ((chunkText (flattenSources sources)).length *
                    clampRatio ρ))).toNat))
                embeddings σ))) := by
  have hsE : sources.isEmpty = false := by
    cases sources with
    | nil => exact absurd rfl hs
    | cons s ss => rfl
  have htrim := flatten_trim_isEmpty_false sources hs
  have hchunks : (chunkText (flattenSources sources)).isEmpty = false := by
    cases h : chunkText (flattenSources sources) with
    | nil => exact absurd h (chunkText_flatten_ne sources hs)
    | cons c cs => rfl
  obtain ⟨embeddings, hembs⟩ := embedAll_total env he
    ((chunkText (flattenSources sources)).take
      ((max 1 (jsRound ((chunkText (flattenSources sources)).length *
        clampRatio ρ))).toNat))
  refine ⟨embeddings, hembs, ?_⟩
  simp only [rebuildFromSources, hsE, htrim, hchunks, hembs,
    Bool.false_eq_true, if_false]
  rfl

lemma clampRatio_eq_self (r : Rat) (hr1 : 1/5 ≤ r) (hr2 : r ≤ 1) :
    clampRatio (some r) = r := by
  unfold clampRatio
  simp only [Option.getD_some]
  rw [max_eq_left hr1, min_eq_right hr2]

/-! ## Claim C1: ratio-limited embedding selection -/

/-- Claim C1: for every non-empty source list — hence a chunk list of
length `n ≥ 1` — and every `embedRatio ∈ [0.2, 1.0]`, a rebuild (with a
successful embedding collaborator) records
`embeddedChunks = max(1, round(n × embedRatio))`, embeds exactly that many
chunks taken as a prefix of the chunk list into the vector store, and
`embeddedChunks ≤ n`. -/
theorem claim_C1 (env : Env) (ownerId : String) (ownerType : ManualOwnerType)
    (sources : List ManualSource) (r : Rat) (σ : SysState)
    (hs : sources ≠ []) (he : ∀ c, ∃ v, env.embed c = Except.ok v)
    (hr1 : 1/5 ≤ r) (hr2 : r ≤ 1) :
    ∃ summary σ',
      rebuildFromSources env ownerId ownerType sources (some r) σ =
        (Except.ok summary, σ') ∧
      summary.embeddedChunks =
        (max 1 (jsRound ((chunkText (flattenSources sources)).length * r))).toNat ∧
      summary.embeddedChunks ≤ (chunkText (flattenSources sources)).length ∧
      1 ≤ (chunkText (flattenSources sources)).length ∧
      (σ'.vectors ownerId).map (fun d => d.content) =
        (chunkText (flattenSources sources)).take summary.embeddedChunks ∧
      ∃ rest, chunkText (flattenSources sources) =
        ((σ'.vectors ownerId).map fun d => d.content) ++ rest := by
  have hclamp := clampRatio_eq_self r hr1 hr2
  have hn : 1 ≤ (chunkText (flattenSources sources)).length :=
    List.length_pos.mpr (chunkText_flatten_ne sources hs)
  have hlim : (max 1 (jsRound ((chunkText (flattenSources sources)).length * r))).toNat ≤
      (chunkText (flattenSources sources)).length :=
    chunkLimit_le _ r hn hr2
  obtain ⟨embs, hembs, heq⟩ :=
    rebuild_ok env ownerId ownerType sources (some r) σ hs he
  rw [hclamp] at heq
  have hE : (toSummary (rebuildRecord env ownerId ownerType sources (some r))).embeddedChunks =
      (max 1 (jsRound ((chunkText (flattenSources sources)).length * r))).toNat := by
    simp only [toSummary, rebuildRecord, hclamp]
    rw [List.length_take]
    exact min_eq_left hlim
  refine ⟨_, _, heq, hE, ?_, hn, ?_, ?_⟩
  · rw [hE]; exact hlim
  · show ((persistMetadata ownerId ownerType _
        (persistManual ownerId _
          (replaceDocuments env ownerId _ embs σ))).vectors ownerId).map
        (fun d => d.content) = _
    simp only [persistMetadata, persistManual, replaceDocuments]
    rw [if_pos trivial, buildDocuments_contents, hE]
  · refine ⟨(chunkText (flattenSources sources)).drop
      ((max 1 (jsRound ((chunkText (flattenSources sources)).length * r))).toNat), ?_⟩
    show _ = ((persistMetadata ownerId ownerType _
        (persistManual ownerId _
          (replaceDocuments env ownerId _ embs σ))).vectors ownerId).map
        (fun d => d.content) ++ _
    simp only [persistMetadata, persistManual, replaceDocuments]
    rw [if_pos trivial, buildDocuments_contents]
    exact (List.take_append_drop _ _).symm

/-- Closed instance of C1: one file source, ratio `1/2`, a one-chunk
manual; the rebuild embeds `max(1, round(1 × 1/2)) = 1` chunk. -/
theorem claim_C1_witness :
    ∃ summary σ',
      rebuildFromSources envW "o" ManualOwnerType.project [srcW] (some (1/2))
        SysState.empty = (Except.ok summary, σ') ∧
      summary.embeddedChunks = 1 := by
  obtain ⟨summary, σ', heq, hE, _, _, _, _⟩ :=
    claim_C1 envW "o" ManualOwnerType.project [srcW] (1/2) SysState.empty
      (by simp) (fun c => ⟨[1, 0], rfl⟩) (by norm_num) (by norm_num)
  refine ⟨summary, σ', heq, ?_⟩
  rw [hE]
  have hlen : (chunkText (flattenSources [srcW])).length = 1 := by decide
  rw [hlen]
  norm_num [jsRound, Int.floor_one]

/-! ## Claim C4: rebuild failure leaves persisted state untouched -/

lemma isEmpty_false_of_ne {α : Type} (l : List α) (h : l ≠ []) :
    l.isEmpty = false := by
  cases l with
  | nil => exact absurd rfl h
  | cons a as => rfl

lemma one_le_max_toNat (z : Int) : 1 ≤ (max 1 z).toNat := by
  have h := le_max_left (1 : Int) z
  omega

lemma embedAll_error_of_mem (env : Env) (l : List (List Char)) (c : List Char)
    (msg : String) (hc : c ∈ l) (hfail : env.embed c = Except.error msg) :
    ∃ m, embedAll env l = Except.error m := by
  induction l with
  | nil => cases hc
  | cons d ds ih =>
    cases hd : env.embed d with
    | error e => exact ⟨e, by unfold embedAll; rw [hd]⟩
    | ok v =>
      rcases List.mem_cons.mp hc with rfl | hmem
      · rw [hd] at hfail; cases hfail
      · obtain ⟨m, hm⟩ := ih hmem
        refine ⟨m, ?_⟩
        unfold embedAll
        rw [hd, hm]

/-- Every early exit of `rebuildFromSources` returns the state unchanged;
only the success path changes it. -/
lemma rebuild_error_state (env : Env) (o : String) (t : ManualOwnerType)
    (sources : List ManualSource) (ρ : Option Rat) (σ : SysState) :
    (∃ s, (rebuildFromSources env o t sources ρ σ).1 = Except.ok s) ∨
    ((∃ e, (rebuildFromSources env o t sources ρ σ).1 = Except.error e) ∧
      (rebuildFromSources env o t sources ρ σ).2 = σ) := by
  unfold rebuildFromSources
  by_cases h1 : sources.isEmpty = true
  · rw [if_pos h1]; right; exact ⟨⟨_, rfl⟩, rfl⟩
  rw [if_neg h1]
  dsimp only
  by_cases h2 : (jsTrim (flattenSources sources)).isEmpty = true
  · rw [if_pos h2]; right; exact ⟨⟨_, rfl⟩, rfl⟩
  rw [if_neg h2]
  by_cases h3 : (chunkText (flattenSources sources)).isEmpty = true
  · rw [if_pos h3]; right; exact ⟨⟨_, rfl⟩, rfl⟩
  rw [if_neg h3]
  cases hem : embedAll env ((chunkText (flattenSources sources)).take
      ((max 1 (jsRound ((chunkText (flattenSources sources)).length *
        clampRatio ρ))).toNat)) with
  | error e => right; exact ⟨⟨_, rfl⟩, rfl⟩
  | ok embs => left; exact ⟨_, rfl⟩

/-- A rebuild whose embedding batch fails aborts with the collaborator's
error and does not touch the state. -/
lemma rebuild_upstream (env : Env) (o : String) (t : ManualOwnerType)
    (sources : List ManualSource) (ρ : Option Rat) (σ : SysState) (m : String)
    (hs : sources ≠ [])
    (hfail : embedAll env ((chunkText (flattenSources sources)).take
      ((max 1 (jsRound ((chunkText (flattenSources sources)).length *
        clampRatio ρ))).toNat)) = Except.error m) :
    rebuildFromSources env o t sources ρ σ =
      (Except.error (ServiceError.upstream m), σ) := by
  have hsE := isEmpty_false_of_ne sources hs
  have htrim := flatten_trim_isEmpty_false sources hs
  have hchunks := isEmpty_false_of_ne _ (chunkText_flatten_ne sources hs)
  simp only [rebuildFromSources, hsE, htrim, hchunks, hfail,
    Bool.false_eq_true, if_false]

/-- Claim C4: if the embedding collaborator fails during a rebuild, the
rebuild aborts without mutating persisted state — the same holds for every
error exit — and on success the new record and the replaced vector
documents become visible together, in the same returned state. -/
theorem claim_C4 (env : Env) (o : String) (t : ManualOwnerType)
    (sources : List ManualSource) (ρ : Option Rat) (σ : SysState) :
    (∀ e, (rebuildFromSources env o t sources ρ σ).1 = Except.error e →
      (rebuildFromSources env o t sources ρ σ).2 = σ) ∧
    (sources ≠ [] →
      ∀ msg c, c ∈ (chunkText (flattenSources sources)).take
          ((max 1 (jsRound ((chunkText (flattenSources sources)).length *
            clampRatio ρ))).toNat) →
        env.embed c = Except.error msg →
        ∃ m, rebuildFromSources env o t sources ρ σ =
          (Except.error (ServiceError.upstream m), σ)) ∧
    (sources ≠ [] → (∀ c, ∃ v, env.embed c = Except.ok v) →
      ∃ embeddings,
        (rebuildFromSources env o t sources ρ σ).1 =
          Except.ok (toSummary (rebuildRecord env o t sources ρ)) ∧
        (rebuildFromSources env o t sources ρ σ).2.manuals o =
          some (rebuildRecord env o t sources ρ) ∧
        (rebuildFromSources env o t sources ρ σ).2.vectors o =
          buildDocuments env.uuid embeddings 0
            ((chunkText (flattenSources sources)).take
              ((max 1 (jsRound ((chunkText (flattenSources sources)).length *
                clampRatio ρ))).toNat))) := by
  refine ⟨?_, ?_, ?_⟩
  · intro e he
    rcases rebuild_error_state env o t sources ρ σ with ⟨s, hs⟩ | ⟨_, hσ⟩
    · rw [hs] at he; cases he
    · exact hσ
  · intro hs msg c hmem hfail
    obtain ⟨m, hm⟩ := embedAll_error_of_mem env _ c msg hmem hfail
    exact ⟨m, rebuild_upstream env o t sources ρ σ m hs hm⟩
  · intro hs he
    obtain ⟨embs, hembs, heq⟩ := rebuild_ok env o t sources ρ σ hs he
    refine ⟨embs, ?_, ?_, ?_⟩
    · rw [heq]
    · rw [heq]
      simp [persistMetadata, persistManual, replaceDocuments]
    · rw [heq]
      simp [persistMetadata, persistManual, replaceDocuments]

/-- Closed instance of C4: a failing embedding collaborator aborts a
rebuild over a state that already holds a record, leaving it unchanged. -/
theorem claim_C4_witness :
    ∃ m, rebuildFromSources envFailW "o" ManualOwnerType.project [srcW]
      (some 1) stateW = (Except.error (ServiceError.upstream m), stateW) := by
  have hchunks : chunkText (flattenSources [srcW]) =
      ["=== guide.txt ===\nhello world".data] := by decide
  have hlim := one_le_max_toNat
    (jsRound ((chunkText (flattenSources [srcW])).length * clampRatio (some 1)))
  have hmem : "=== guide.txt ===\nhello world".data ∈
      (chunkText (flattenSources [srcW])).take
        ((max 1 (jsRound ((chunkText (flattenSources [srcW])).length *
          clampRatio (some 1)))).toNat) := by
    rw [hchunks, List.take_of_length_le (by exact hlim)]
    simp
  exact (claim_C4 envFailW "o" ManualOwnerType.project [srcW] (some 1)
    stateW).2.1 (by simp) "embedding collaborator timed out" _ hmem rfl

/-! ## Claim C10: the embed-ratio invariant -/

/-- Claim C10: every record the service persists or returns has
`embedRatio ∈ [0.2, 1.0]` — the clamp `min(1, max(ratio ?? 1, 0.2))` is
applied both when rebuilding and when reading a persisted record, a missing
ratio defaults to 1, and an out-of-range ratio is silently coerced, never
rejected. -/
theorem claim_C10 (x : Option Rat) (uuid : Nat → String) (now : String)
    (praw : PartialRecord) (oid : String) (dot : ManualOwnerType)
    (rec : ManualCacheRecord) (env : Env) (o : String) (t : ManualOwnerType)
    (sources : List ManualSource) (ρ : Option Rat) (σ : SysState) :
    (1/5 ≤ clampRatio x ∧ clampRatio x ≤ 1) ∧
    clampRatio none = 1 ∧
    (normalizeRecord uuid now (some praw) oid dot = some rec →
      rec.embedRatio = clampRatio praw.embedRatio ∧
      1/5 ≤ rec.embedRatio ∧ rec.embedRatio ≤ 1) ∧
    (sources ≠ [] → (∀ c, ∃ v, env.embed c = Except.ok v) →
      ∃ summary σ',
        rebuildFromSources env o t sources ρ σ = (Except.ok summary, σ') ∧
        summary.embedRatio = clampRatio ρ ∧
        σ'.manuals o = some (rebuildRecord env o t sources ρ) ∧
        (rebuildRecord env o t sources ρ).embedRatio = clampRatio ρ) := by
  refine ⟨clampRatio_mem x, by norm_num [clampRatio], ?_, ?_⟩
  · intro h
    unfold normalizeRecord at h
    dsimp only at h
    cases hmt : praw.manualText with
    | none => rw [hmt] at h; simp at h
    | some mt =>
      rw [hmt] at h
      dsimp only at h
      by_cases hemp : (jsTrim mt).isEmpty = true
      · rw [if_pos hemp] at h; cases h
      · rw [if_neg hemp] at h
        have hrec := (Option.some.injEq _ _).mp h
        rw [← hrec]
        exact ⟨rfl, clampRatio_mem _⟩
  · intro hs he
    obtain ⟨embs, hembs, heq⟩ := rebuild_ok env o t sources ρ σ hs he
    refine ⟨_, _, heq, rfl, ?_, rfl⟩
    simp [persistMetadata, persistManual, replaceDocuments]

/-- Closed instance of C10: a legacy record with stored ratio `5` is read
back with ratio clamped to `1`, silently. -/
theorem claim_C10_witness :
    normalizeRecord (fun n => toString n) "T" (some prawW) "o"
      ManualOwnerType.project = some recNormW ∧
    recNormW.embedRatio = 1 ∧ prawW.embedRatio = some 5 := by
  refine ⟨rfl, ?_, rfl⟩
  have h := (claim_C10 none (fun n => toString n) "T" prawW "o"
    ManualOwnerType.project recNormW envW "o" ManualOwnerType.project [srcW]
    none stateW).2.2.1 rfl
  rw [h.1]
  show clampRatio (some 5) = 1
  norm_num [clampRatio]

/-! ## Claim C2: append/replace merge semantics -/

/-- Claim C2: with mode Append the ingestion proceeds on the existing
record's sources followed by the newly created sources; with mode Replace
on the new sources only; and if the merged list is empty it fails with
`BadRequest` and the state is unchanged (nothing persisted). -/
theorem claim_C2 (env : Env) (ownerId : String) (t : ManualOwnerType)
    (files : List FileInput) (ratio : Rat) (instr : Option (List Char))
    (dtoMode : Option IngestMode) (σ : SysState) :
    (∀ record, dtoMode ≠ some IngestMode.replace →
      σ.manuals ownerId = some record →
      record.sources ++ createSourcesFromPayload env files instr ≠ [] →
      ingestInternal env ownerId t files ratio instr dtoMode σ =
        rebuildFromSources env ownerId t
          (record.sources ++ createSourcesFromPayload env files instr)
          (some ratio) σ) ∧
    (dtoMode = some IngestMode.replace →
      createSourcesFromPayload env files instr ≠ [] →
      ingestInternal env ownerId t files ratio instr dtoMode σ =
        rebuildFromSources env ownerId t
          (createSourcesFromPayload env files instr) (some ratio) σ) ∧
    ((if dtoMode = some IngestMode.replace then ([] : List ManualSource)
        else (σ.manuals ownerId).elim [] (fun r => r.sources)) ++
        createSourcesFromPayload env files instr = [] →
      ingestInternal env ownerId t files ratio instr dtoMode σ =
        (Except.error (ServiceError.badRequest
          "Please upload a file or add instructions."), σ)) := by
  refine ⟨?_, ?_, ?_⟩
  · intro record hmode hrec hne
    have hE := isEmpty_false_of_ne _ hne
    simp only [ingestInternal, ingestInternalRest, if_neg hmode, hrec]
    simp [hE]
  · intro hmode hne
    have hE := isEmpty_false_of_ne _ hne
    subst hmode
    simp only [ingestInternal, ingestInternalRest]
    simp [hE]
  · intro hmerged
    by_cases hmode : dtoMode = some IngestMode.replace
    · rw [if_pos hmode] at hmerged
      simp only [List.nil_append] at hmerged
      subst hmode
      simp only [ingestInternal, ingestInternalRest]
      simp [hmerged]
    · rw [if_neg hmode] at hmerged
      simp only [ingestInternal, ingestInternalRest, if_neg hmode]
      cases hrec : σ.manuals ownerId with
      | none =>
        rw [hrec] at hmerged
        simp only [Option.elim_none, List.nil_append] at hmerged
        simp [hrec, hmerged]
      | some record =>
        rw [hrec] at hmerged
        simp only [Option.elim_some] at hmerged
        simp [hrec, hmerged]

/-- Closed instance of C2: a replace-mode ingestion with one non-empty file
proceeds on exactly the newly created sources over an empty state. -/
theorem claim_C2_witness :
    ingestInternal envW "o" ManualOwnerType.project [fileW] 1 none
      (some IngestMode.replace) SysState.empty =
      rebuildFromSources envW "o" ManualOwnerType.project
        (createSourcesFromPayload envW [fileW] none) (some 1)
        SysState.empty :=
  (claim_C2 envW "o" ManualOwnerType.project [fileW] 1 none
    (some IngestMode.replace) SysState.empty).2.1 rfl (by decide)

/-! ## Claim C3: source removal -/

/-- Claim C3: for an owner that has a record, removing a `sourceId` that
matches none of the record's sources fails with `NotFound`; removing the
only remaining source deletes the persisted record, the owner's vector
documents and metadata row, the removal reports `hasManual = false`, and a
subsequent status query also reports `hasManual = false`. -/
theorem claim_C3 (env : Env) (ownerId sourceId : String)
    (t : ManualOwnerType) (σ : SysState) (record : ManualCacheRecord)
    (hoid : jsTrim ownerId.data ≠ []) (hsid : jsTrim sourceId.data ≠ [])
    (hrec : σ.manuals ownerId = some record) :
    ((∀ s ∈ record.sources, s.id ≠ sourceId) →
      removeSource env ownerId sourceId t σ =
        (Except.error (ServiceError.notFound "요청한 자료를 찾을 수 없습니다."), σ)) ∧
    (∀ s, record.sources = [s] → s.id = sourceId →
      removeSource env ownerId sourceId t σ =
        (Except.ok ⟨false, none⟩, deleteManual ownerId σ) ∧
      (deleteManual ownerId σ).manuals ownerId = none ∧
      (deleteManual ownerId σ).vectors ownerId = [] ∧
      getManualStatus (deleteManual ownerId σ) ownerId = ⟨false, none⟩) := by
  have hoidE := isEmpty_false_of_ne _ hoid
  have hsidE := isEmpty_false_of_ne _ hsid
  refine ⟨?_, ?_⟩
  · intro hnone
    have hfilter : record.sources.filter (fun s => s.id ≠ sourceId) =
        record.sources :=
      List.filter_eq_self.mpr fun s hs => by simp [hnone s hs]
    simp only [removeSource, hoidE, hsidE, hrec, Bool.false_eq_true, if_false]
    rw [hfilter]
    simp
  · intro s hsrc hsid2
    have hfilter : record.sources.filter (fun s => s.id ≠ sourceId) = [] := by
      rw [hsrc]
      simp [hsid2]
    have hlen : (record.sources.filter (fun s => s.id ≠ sourceId)).length ≠
        record.sources.length := by
      rw [hfilter, hsrc]
      simp
    refine ⟨?_, ?_, ?_, ?_⟩
    · simp only [removeSource, hoidE, hsidE, hrec, Bool.false_eq_true, if_false]
      rw [hfilter]
      simp only [List.length_nil]
      rw [if_neg (show ¬(0 = record.sources.length) from by rw [hsrc]; simp)]
      simp
    · simp [deleteManual, clearDocuments]
    · simp [deleteManual, clearDocuments]
    · simp [getManualStatus, deleteManual, clearDocuments]

/-- Closed instance of C3: removing the only source of owner `"o"` clears
the record and the vector documents, and the status query then reports no
manual. -/
theorem claim_C3_witness :
    removeSource envW "o" "src-1" ManualOwnerType.project stateW =
      (Except.ok ⟨false, none⟩, deleteManual "o" stateW) ∧
    (deleteManual "o" stateW).manuals "o" = none ∧
    (deleteManual "o" stateW).vectors "o" = [] ∧
    getManualStatus (deleteManual "o" stateW) "o" = ⟨false, none⟩ :=
  (claim_C3 envW "o" "src-1" ManualOwnerType.project stateW recW
    (by decide) (by decide) rfl).2 srcW rfl rfl

/-! ## Claim C9: concurrent ingestion is not serialized

`ingestInternal` awaits `readManualFile` (manuals.service.ts:245) and then
rebuilds and persists with no per-owner lock of any kind; between the read
and the write the request suspends many times (text extraction, embedding
calls, file writes).  Two concurrent append requests can therefore both
read the initial record before either writes, and the second write then
overwrites the first — a lost update.  The demonstration below executes
exactly that interleaving: both requests read owner `"o"`'s record from the
initial state (obtaining no existing sources), request A's tail runs first,
then request B's tail runs on A's post-state but with its stale read. -/

/-- Claim C9 is false of the code (lost update): both append requests
succeed with one file each, yet the final persisted `fileCount` is 1, lower
than the sum 2 of the two requests' file counts; running request B's full
`ingestInternal` after A (the serialized order the claim requires) yields
`fileCount = 2`. -/
theorem claim_C9 :
    SysState.empty.manuals "o" = none ∧
    ∃ sum1 σ1 sum2 σ2,
      ingestInternalRest envW "o" ManualOwnerType.project [] [fileW] none 1
        SysState.empty = (Except.ok sum1, σ1) ∧
      ingestInternalRest envW "o" ManualOwnerType.project [] [fileW2] none 1
        σ1 = (Except.ok sum2, σ2) ∧
      sum1.fileCount = 1 ∧ sum2.fileCount = 1 ∧
      (σ2.manuals "o").map (fun r => r.fileCount) = some 1 ∧
      ∃ sum2' σ2',
        ingestInternal envW "o" ManualOwnerType.project [fileW2] 1 none none
          σ1 = (Except.ok sum2', σ2') ∧
        (σ2'.manuals "o").map (fun r => r.fileCount) = some 2 := by
  have heW : ∀ c, ∃ v, envW.embed c = Except.ok v := fun c => ⟨[1, 0], rfl⟩
  have hupA : createSourcesFromPayload envW [fileW] none ≠ [] := by decide
  have hupB : createSourcesFromPayload envW [fileW2] none ≠ [] := by decide
  refine ⟨rfl, ?_⟩
  obtain ⟨embsA, hembsA, heqA⟩ := rebuild_ok envW "o" ManualOwnerType.project
    (createSourcesFromPayload envW [fileW] none) (some 1) SysState.empty
    hupA heW
  have hrestA : ingestInternalRest envW "o" ManualOwnerType.project []
      [fileW] none 1 SysState.empty =
      rebuildFromSources envW "o" ManualOwnerType.project
        (createSourcesFromPayload envW [fileW] none) (some 1)
        SysState.empty := by
    simp only [ingestInternalRest, List.nil_append,
      isEmpty_false_of_ne _ hupA, Bool.false_eq_true, if_false]
  set R1 := rebuildRecord envW "o" ManualOwnerType.project
    (createSourcesFromPayload envW [fileW] none) (some 1) with hR1
  set σ1 := persistMetadata "o" ManualOwnerType.project R1
    (persistManual "o" R1
      (replaceDocuments envW "o" _ embsA SysState.empty)) with hσ1
  obtain ⟨embsB, hembsB, heqB⟩ := rebuild_ok envW "o" ManualOwnerType.project
    (createSourcesFromPayload envW [fileW2] none) (some 1) σ1 hupB heW
  have hrestB : ingestInternalRest envW "o" ManualOwnerType.project []
      [fileW2] none 1 σ1 =
      rebuildFromSources envW "o" ManualOwnerType.project
        (createSourcesFromPayload envW [fileW2] none) (some 1) σ1 := by
    simp only [ingestInternalRest, List.nil_append,
      isEmpty_false_of_ne _ hupB, Bool.false_eq_true, if_false]
  set R2 := rebuildRecord envW "o" ManualOwnerType.project
    (createSourcesFromPayload envW [fileW2] none) (some 1) with hR2
  refine ⟨toSummary R1, σ1, toSummary R2, _, by rw [hrestA]; exact heqA,
    by rw [hrestB]; exact heqB, by decide, by decide, ?_, ?_⟩
  · show ((persistMetadata "o" ManualOwnerType.project R2
        (persistManual "o" R2 _)).manuals "o").map (fun r => r.fileCount) =
      some 1
    simp only [persistMetadata, persistManual]
    rw [if_pos trivial]
    show some ((createSourcesFromPayload envW [fileW2] none).filter
      (fun s => s.type = ManualSourceType.file)).length = some 1
    decide
  · -- the serialized order: B's full ingestion (read + rest) after A
    have hread : σ1.manuals "o" = some R1 := by
      simp only [hσ1, persistMetadata, persistManual]
      rw [if_pos trivial]
    have hfullB : ingestInternal envW "o" ManualOwnerType.project [fileW2] 1
        none none σ1 =
        ingestInternalRest envW "o" ManualOwnerType.project R1.sources
          [fileW2] none 1 σ1 := by
      simp only [ingestInternal, hread]
      simp
    have hmergedB : R1.sources ++ createSourcesFromPayload envW [fileW2] none ≠ [] := by
      intro h
      exact hupB (List.append_eq_nil.mp h).2
    obtain ⟨embsB', hembsB', heqB'⟩ := rebuild_ok envW "o"
      ManualOwnerType.project
      (R1.sources ++ createSourcesFromPayload envW [fileW2] none) (some 1) σ1
      hmergedB heW
    have hrestB' : ingestInternalRest envW "o" ManualOwnerType.project
        R1.sources [fileW2] none 1 σ1 =
        rebuildFromSources envW "o" ManualOwnerType.project
          (R1.sources ++ createSourcesFromPayload envW [fileW2] none)
          (some 1) σ1 := by
      simp only [ingestInternalRest,
        isEmpty_false_of_ne _ hmergedB, Bool.false_eq_true, if_false]
    refine ⟨_, _, by rw [hfullB, hrestB']; exact heqB', ?_⟩
    show ((persistMetadata "o" ManualOwnerType.project _
        (persistManual "o" _ _)).manuals "o").map (fun r => r.fileCount) =
      some 2
    simp only [persistMetadata, persistManual]
    rw [if_pos trivial]
    show some (((R1.sources ++ createSourcesFromPayload envW [fileW2] none).filter
      (fun s => s.type = ManualSourceType.file)).length) = some 2
    have hR1src : R1.sources = createSourcesFromPayload envW [fileW] none := rfl
    rw [hR1src]
    decide

/-! ## Claim C5: legacy reconstruction — line-splitting lemmas -/

lemma splitLinesChar_ne_nil (l : List Char) : splitLinesChar l ≠ [] := by
  induction l with
  | nil => simp [splitLinesChar]
  | cons c cs ih =>
    unfold splitLinesChar at ih ⊢
    rw [List.foldr_cons]
    by_cases hc : c = '\n'
    · rw [if_pos hc]; simp
    · rw [if_neg hc]
      cases h : List.foldr _ [[]] cs with
      | nil => exact absurd h ih
      | cons a as => simp

lemma splitLinesChar_cons (c : Char) (l : List Char) :
    splitLinesChar (c :: l) =
      if c = '\n' then [] :: splitLinesChar l
      else match splitLinesChar l with
        | [] => [[c]]
        | a :: as => (c :: a) :: as := by
  unfold splitLinesChar
  rw [List.foldr_cons]

/-- Splitting distributes over a newline: `a ++ '\n' :: b` splits into the
lines of `a` followed by the lines of `b`. -/
lemma splitLinesChar_append (a b : List Char) :
    splitLinesChar (a ++ '\n' :: b) = splitLinesChar a ++ splitLinesChar b := by
  induction a with
  | nil =>
    rw [List.nil_append, splitLinesChar_cons, if_pos rfl]
    rfl
  | cons c a ih =>
    rw [List.cons_append, splitLinesChar_cons, splitLinesChar_cons, ih]
    by_cases hc : c = '\n'
    · rw [if_pos hc, if_pos hc]
      simp
    · rw [if_neg hc, if_neg hc]
      cases h : splitLinesChar a with
      | nil => exact absurd h (splitLinesChar_ne_nil a)
      | cons x xs => simp

/-- A newline-free text is a single line. -/
lemma splitLinesChar_no_newline (a : List Char) (h : '\n' ∉ a) :
    splitLinesChar a = [a] := by
  induction a with
  | nil => rfl
  | cons c a ih =>
    have hc : ¬ c = '\n' := fun hcc => h (by simp [hcc])
    have ha : '\n' ∉ a := fun hna => h (by simp [hna])
    rw [splitLinesChar_cons, if_neg hc, ih ha]

lemma linesWith_append (xs ys : List (List Char)) (p : Nat) :
    linesWith (xs ++ ys) p = linesWith xs p ++ linesWith ys (p + linesSize xs) := by
  induction xs generalizing p with
  | nil => simp [linesWith, linesSize]
  | cons x xs ih =>
    rw [List.cons_append]
    show (p, x) :: linesWith (xs ++ ys) (p + x.length + 1) =
      ((p, x) :: linesWith xs (p + x.length + 1)) ++
        linesWith ys (p + linesSize (x :: xs))
    have harith : p + x.length + 1 + linesSize xs = p + linesSize (x :: xs) := by
      simp [linesSize]
      omega
    rw [ih, harith, List.cons_append]

lemma linesSize_splitLines (a : List Char) :
    linesSize (splitLinesChar a) = a.length + 1 := by
  induction a with
  | nil => rfl
  | cons c a ih =>
    rw [splitLinesChar_cons]
    by_cases hc : c = '\n'
    · rw [if_pos hc]
      simp [linesSize] at ih ⊢
      omega
    · rw [if_neg hc]
      cases h : splitLinesChar a with
      | nil => exact absurd h (splitLinesChar_ne_nil a)
      | cons x xs =>
        rw [h] at ih
        simp [linesSize] at ih ⊢
        omega

/-! ## Trim lemmas for the reconstruction proof -/

lemma trimLeft_eq_of_jsTrim {l : List Char} (h : jsTrim l = l) :
    trimLeft l = l := by
  have h1 : (trimLeft l).length ≤ l.length := by
    unfold trimLeft
    exact (List.dropWhile_suffix isJsWs).length_le
  have h2 : (jsTrim l).length ≤ (trimLeft l).length := by
    unfold jsTrim trimRight
    rw [List.length_reverse]
    calc ((trimLeft l).reverse.dropWhile isJsWs).length ≤
        (trimLeft l).reverse.length := (List.dropWhile_suffix isJsWs).length_le
    _ = (trimLeft l).length := List.length_reverse _
  have hlen : (trimLeft l).length = l.length := by
    rw [h] at h2
    omega
  exact (List.dropWhile_suffix isJsWs).eq_of_length hlen

lemma trimRight_eq_of_jsTrim {l : List Char} (h : jsTrim l = l) :
    trimRight l = l := by
  have hl := trimLeft_eq_of_jsTrim h
  unfold jsTrim at h
  rwa [hl] at h

lemma dropWhile_reverse_eq_of_jsTrim {l : List Char} (h : jsTrim l = l) :
    l.reverse.dropWhile isJsWs = l.reverse := by
  have hr := trimRight_eq_of_jsTrim h
  unfold trimRight at hr
  have := congrArg List.reverse hr
  rwa [List.reverse_reverse] at this

/-- Trimming a text that is a trimmed non-empty body padded with whitespace
on both sides recovers the body. -/
lemma jsTrim_pad (pre post : List Char) (l : List Char)
    (hpre : ∀ c ∈ pre, isJsWs c = true) (hpost : ∀ c ∈ post, isJsWs c = true)
    (h : jsTrim l = l) (hne : l ≠ []) :
    jsTrim (pre ++ l ++ post) = l := by
  obtain ⟨x, l', rfl⟩ : ∃ x l', l = x :: l' := by
    cases l with
    | nil => exact absurd rfl hne
    | cons x l' => exact ⟨x, l', rfl⟩
  have hx : isJsWs x = false := by
    have := trimLeft_eq_of_jsTrim h
    unfold trimLeft at this
    rw [List.dropWhile_cons] at this
    by_cases hxw : isJsWs x = true
    · rw [if_pos (by simp [hxw])] at this
      have hlen := (List.dropWhile_suffix (l := l') isJsWs).length_le
      have := congrArg List.length this
      simp at this
      omega
    · simpa using hxw
  unfold jsTrim trimLeft
  have hdl : (pre ++ (x :: l') ++ post).dropWhile isJsWs =
      (x :: l') ++ post := by
    rw [List.append_assoc, List.dropWhile_append]
    have hpe : (pre.dropWhile isJsWs).isEmpty = true := by
      rw [List.dropWhile_eq_nil_iff.mpr hpre]
      rfl
    rw [if_pos hpe]
    rw [List.cons_append, List.dropWhile_cons, if_neg (by simp [hx])]
  rw [hdl]
  unfold trimRight
  rw [List.reverse_append, List.dropWhile_append]
  have hpostR : post.reverse.dropWhile isJsWs = [] :=
    List.dropWhile_eq_nil_iff.mpr (by intro c hc; exact hpost c (by simpa using hc))
  rw [hpostR]
  simp only [List.isEmpty_nil, if_true]
  rw [dropWhile_reverse_eq_of_jsTrim h]
  simp

lemma trimRight_append_nonws (l : List Char) (c : Char)
    (hc : isJsWs c = false) : trimRight (l ++ [c]) = l ++ [c] := by
  unfold trimRight
  rw [List.reverse_append]
  show ((c :: l.reverse).dropWhile isJsWs).reverse = l ++ [c]
  rw [List.dropWhile_cons, if_neg (by simp [hc])]
  simp

/-- A line of the canonical shape `===` ++ `A` ++ `===` matches the header
regex with capture group `A` (for non-empty `A`): the closing `===` is the
final one, nothing follows it, and `trimRight` keeps the line intact since
it ends in `=`. -/
lemma lineHeaderLabel_canonical (A : List Char) (hne : A ≠ []) :
    lineHeaderLabel ("===".data ++ A ++ "===".data) = some A := by
  unfold lineHeaderLabel
  have hstart : startsWithL "===".data ("===".data ++ A ++ "===".data) = true := rfl
  rw [hstart]
  simp only [if_true]
  have hdrop : ("===".data ++ A ++ "===".data).drop 3 = A ++ "===".data := rfl
  rw [hdrop]
  have hshape : A ++ "===".data = (A ++ ['=', '=']) ++ ['='] := by
    rw [show "===".data = ['=', '=', '='] from rfl]
    simp
  have hcore : trimRight (A ++ "===".data) = A ++ "===".data := by
    rw [hshape, trimRight_append_nonws _ _ (by decide), ← hshape]
  rw [hcore]
  have hends : endsWithL "===".data (A ++ "===".data) = true := by
    unfold endsWithL
    rw [show "===".data = ['=', '=', '='] from rfl, List.reverse_append]
    rfl
  have hlen : (A ++ "===".data).length = A.length + 3 := by simp
  rw [hends]
  have h4 : decide (4 ≤ (A ++ "===".data).length) = true := by
    rw [hlen]
    have : 1 ≤ A.length := List.length_pos.mpr hne
    simp
    omega
  rw [h4]
  simp only [Bool.and_self, if_true]
  rw [hlen]
  have htake : A.length + 3 - 3 = A.length := by omega
  rw [htake]
  simp

lemma linesWith_mem {ls : List (List Char)} {p : Nat} {q : Nat}
    {line : List Char} (h : (q, line) ∈ linesWith ls p) : line ∈ ls := by
  induction ls generalizing p with
  | nil => cases h
  | cons x xs ih =>
    unfold linesWith at h
    rcases List.mem_cons.mp h with heq | hmem
    · rw [show line = x from congrArg Prod.snd heq]
      simp
    · exact List.mem_cons_of_mem x (ih hmem)

lemma headerMatches_filterMap_none {ls : List (List Char)} (p : Nat)
    (h : ∀ l ∈ ls, lineHeaderLabel l = none) :
    (linesWith ls p).filterMap (fun q =>
      (lineHeaderLabel q.2).map fun label => (q.1, q.2.length, label)) = [] := by
  apply List.filterMap_eq_nil_iff.mpr
  intro a ha
  rw [h a.2 (linesWith_mem (by simpa using ha))]
  rfl

lemma jsSlice_nonneg (l : List Char) (s e : Nat) (hs : s ≤ l.length)
    (he : e ≤ l.length) :
    jsSlice l (s : Int) (e : Int) = (l.drop s).take (e - s) := by
  unfold jsSlice
  dsimp only
  rw [if_neg (by omega), if_neg (by omega)]
  have h1 : ((s : Int) ⊓ (l.length : Int)).toNat = s := by omega
  have h2 : ((e : Int) ⊓ (l.length : Int)).toNat = e := by omega
  rw [h1, h2]

lemma linesWith_nil (p : Nat) : linesWith [] p = [] := rfl

lemma linesWith_cons (x : List Char) (xs : List (List Char)) (p : Nat) :
    linesWith (x :: xs) p = (p, x) :: linesWith xs (p + x.length + 1) := rfl

/-- The header matches of a canonical two-block manual text: exactly the
two header lines, at offsets 0 and `|L1| + |B1| + 11`, with the raw capture
groups still carrying the surrounding spaces. -/
lemma headerMatches_two (L1 L2 B1 B2 : List Char)
    (hL1nl : '\n' ∉ L1) (hL2nl : '\n' ∉ L2)
    (hB1h : ∀ l ∈ splitLinesChar B1, lineHeaderLabel l = none)
    (hB2h : ∀ l ∈ splitLinesChar B2, lineHeaderLabel l = none) :
    headerMatches ("=== ".data ++ L1 ++ " ===\n".data ++ B1 ++
        "\n\n=== ".data ++ L2 ++ " ===\n".data ++ B2) =
      [(0, L1.length + 8, ' ' :: (L1 ++ [' '])),
       (L1.length + B1.length + 11, L2.length + 8, ' ' :: (L2 ++ [' ']))] := by
  have htext : "=== ".data ++ L1 ++ " ===\n".data ++ B1 ++
      "\n\n=== ".data ++ L2 ++ " ===\n".data ++ B2 =
      ("===".data ++ (' ' :: (L1 ++ [' '])) ++ "===".data) ++ '\n' ::
        (B1 ++ '\n' :: ('\n' ::
          (("===".data ++ (' ' :: (L2 ++ [' '])) ++ "===".data) ++ '\n' :: B2))) := by
    rw [show "=== ".data = ['=', '=', '=', ' '] from rfl,
      show " ===\n".data = [' ', '=', '=', '=', '\n'] from rfl,
      show "\n\n=== ".data = ['\n', '\n', '=', '=', '=', ' '] from rfl,
      show "===".data = ['=', '=', '='] from rfl]
    simp
  have hH1nl : '\n' ∉ ("===".data ++ (' ' :: (L1 ++ [' '])) ++ "===".data) := by
    intro hmem
    simp at hmem
    exact hL1nl hmem
  have hH2nl : '\n' ∉ ("===".data ++ (' ' :: (L2 ++ [' '])) ++ "===".data) := by
    intro hmem
    simp at hmem
    exact hL2nl hmem
  have hlab1 := lineHeaderLabel_canonical (' ' :: (L1 ++ [' '])) (by simp)
  have hlab2 := lineHeaderLabel_canonical (' ' :: (L2 ++ [' '])) (by simp)
  have hlenH1 : ("===".data ++ (' ' :: (L1 ++ [' '])) ++ "===".data).length =
      L1.length + 8 := by
    simp
  have hlenH2 : ("===".data ++ (' ' :: (L2 ++ [' '])) ++ "===".data).length =
      L2.length + 8 := by
    simp
  unfold headerMatches
  rw [htext, splitLinesChar_append, splitLinesChar_no_newline _ hH1nl,
    splitLinesChar_append, splitLinesChar_cons, if_pos rfl,
    splitLinesChar_append, splitLinesChar_no_newline _ hH2nl]
  rw [show ([("===".data ++ (' ' :: (L1 ++ [' '])) ++ "===".data)] :
      List (List Char)) ++ (splitLinesChar B1 ++ ([] ::
        ([("===".data ++ (' ' :: (L2 ++ [' '])) ++ "===".data)] ++
          splitLinesChar B2))) =
      [("===".data ++ (' ' :: (L1 ++ [' '])) ++ "===".data)] ++
        (splitLinesChar B1 ++ ([[]] ++
          ([("===".data ++ (' ' :: (L2 ++ [' '])) ++ "===".data)] ++
            splitLinesChar B2))) from by simp]
  rw [linesWith_append, linesWith_append, linesWith_append, linesWith_append]
  rw [linesWith_cons, linesWith_nil, linesWith_cons, linesWith_nil,
    linesWith_cons, linesWith_nil]
  rw [List.filterMap_append, List.filterMap_append, List.filterMap_append,
    List.filterMap_append]
  rw [List.filterMap_cons_some (by rw [hlab1]; rfl)]
  rw [List.filterMap_cons_none (by rfl)]
  rw [List.filterMap_cons_some (by rw [hlab2]; rfl)]
  rw [headerMatches_filterMap_none _ hB1h, headerMatches_filterMap_none _ hB2h]
  rw [List.filterMap_nil]
  have hsz1 : linesSize ["===".data ++ ' ' :: (L1 ++ [' ']) ++ "===".data] =
      L1.length + 9 := by
    simp only [linesSize, List.map_cons, List.map_nil, List.sum_cons,
      List.sum_nil, hlenH1]
    omega
  have hszE : linesSize [([] : List Char)] = 1 := by
    simp [linesSize]
  rw [hsz1, hszE, linesSize_splitLines]
  dsimp only
  rw [hlenH1, hlenH2]
  simp only [List.append_nil, List.nil_append, List.cons_append,
    List.singleton_append]
  have harith : 0 + (L1.length + 9) + (B1.length + 1) + 1 =
      L1.length + B1.length + 11 := by omega
  rw [harith]

lemma two_block_decomp (L1 L2 B1 B2 : List Char) :
    "=== ".data ++ L1 ++ " ===\n".data ++ B1 ++ "\n\n=== ".data ++ L2 ++
        " ===\n".data ++ B2 =
      ("===".data ++ (' ' :: (L1 ++ [' '])) ++ "===".data) ++ '\n' ::
        (B1 ++ '\n' :: ('\n' ::
          (("===".data ++ (' ' :: (L2 ++ [' '])) ++ "===".data) ++
            '\n' :: B2))) := by
  rw [show "=== ".data = ['=', '=', '=', ' '] from rfl,
    show " ===\n".data = [' ', '=', '=', '=', '\n'] from rfl,
    show "\n\n=== ".data = ['\n', '\n', '=', '=', '=', ' '] from rfl,
    show "===".data = ['=', '=', '='] from rfl]
  simp

lemma filterMap_map_congr {α β γ : Type} (l : List α) (f g : α → Option β)
    (p : β → γ) (h : ∀ x ∈ l, (f x).map p = (g x).map p) :
    (l.filterMap f).map p = (l.filterMap g).map p := by
  induction l with
  | nil => rfl
  | cons x xs ih =>
    have hx := h x (by simp)
    have hxs := ih fun y hy => h y (List.mem_cons_of_mem x hy)
    cases hfx : f x with
    | none =>
      rw [hfx] at hx
      cases hgx : g x with
      | none => rw [List.filterMap_cons_none hfx, List.filterMap_cons_none hgx]
                exact hxs
      | some b => rw [hgx] at hx; cases hx
    | some b =>
      rw [hfx] at hx
      cases hgx : g x with
      | none => rw [hgx] at hx; cases hx
      | some b' =>
        rw [hgx] at hx
        rw [List.filterMap_cons_some hfx, List.filterMap_cons_some hgx]
        simp only [List.map_cons]
        have hx' : p b = p b' := by simpa using hx
        rw [hxs, hx']

/-- Claim C5: legacy reconstruction.  (a) A `manualText` made of exactly
two `=== Label ===` header blocks with non-empty bodies reconstructs to
exactly two sources whose labels and section texts match the blocks; (b) a
`manualText` with no header lines reconstructs to exactly one Instruction
source labelled `기존 매뉴얼` whose text is the whole `manualText`; (c)
re-deriving from the same `manualText` yields the same source boundaries
regardless of the generated ids. -/
theorem claim_C5 (uuid u1 u2 : Nat → String) (t : String)
    (L1 L2 B1 B2 manualText : List Char) :
    ((jsTrim L1 = L1) → L1 ≠ [] → '\n' ∉ L1 →
     (jsTrim L2 = L2) → L2 ≠ [] → '\n' ∉ L2 →
     (jsTrim B1 = B1) → B1 ≠ [] →
     (∀ l ∈ splitLinesChar B1, lineHeaderLabel l = none) →
     (jsTrim B2 = B2) → B2 ≠ [] →
     (∀ l ∈ splitLinesChar B2, lineHeaderLabel l = none) →
      (reconstructSourcesFromManualText uuid
        ("=== ".data ++ L1 ++ " ===\n".data ++ B1 ++ "\n\n=== ".data ++
          L2 ++ " ===\n".data ++ B2) t).map (fun s => (s.label, s.text)) =
        [(L1, B1), (L2, B2)]) ∧
    ((∀ l ∈ splitLinesChar manualText, lineHeaderLabel l = none) →
      reconstructSourcesFromManualText uuid manualText t =
        [⟨uuid 0, ManualSourceType.instruction, "기존 매뉴얼".data,
          manualText, t, none⟩]) ∧
    ((reconstructSourcesFromManualText u1 manualText t).map
        (fun s => (s.type, s.label, s.text, s.createdAt)) =
      (reconstructSourcesFromManualText u2 manualText t).map
        (fun s => (s.type, s.label, s.text, s.createdAt))) := by
  refine ⟨?_, ?_, ?_⟩
  · intro hL1 hL1n hL1nl hL2 hL2n hL2nl hB1 hB1n hB1h hB2 hB2n hB2h
    have hms := headerMatches_two L1 L2 B1 B2 hL1nl hL2nl hB1h hB2h
    have hdecomp := two_block_decomp L1 L2 B1 B2
    have htextlen : ("=== ".data ++ L1 ++ " ===\n".data ++ B1 ++
        "\n\n=== ".data ++ L2 ++ " ===\n".data ++ B2).length =
        L1.length + B1.length + L2.length + B2.length + 20 := by
      rw [hdecomp]
      simp
      omega
    simp only [reconstructSourcesFromManualText, hms]
    rw [show (([(0, L1.length + 8, ' ' :: (L1 ++ [' '])),
        (L1.length + B1.length + 11, L2.length + 8,
          ' ' :: (L2 ++ [' ']))]).isEmpty) = false from rfl]
    simp only [Bool.false_eq_true, if_false]
    rw [show ([(0, L1.length + 8, ' ' :: (L1 ++ [' '])),
        (L1.length + B1.length + 11, L2.length + 8,
          ' ' :: (L2 ++ [' ']))].enum) =
      [(0, 0, L1.length + 8, ' ' :: (L1 ++ [' '])),
       (1, L1.length + B1.length + 11, L2.length + 8,
         ' ' :: (L2 ++ [' ']))] from rfl]
    have hlenH1 : ("===".data ++ (' ' :: (L1 ++ [' '])) ++ "===".data).length =
        L1.length + 8 := by simp
    have hlenH2 : ("===".data ++ (' ' :: (L2 ++ [' '])) ++ "===".data).length =
        L2.length + 8 := by simp
    have hheader1 : jsTrim (' ' :: (L1 ++ [' '])) = L1 := by
      have h := jsTrim_pad [' '] [' '] L1 (by decide) (by decide) hL1 hL1n
      exact h
    have hheader2 : jsTrim (' ' :: (L2 ++ [' '])) = L2 := by
      have h := jsTrim_pad [' '] [' '] L2 (by decide) (by decide) hL2 hL2n
      exact h
    have hsect1 : jsSlice ("=== ".data ++ L1 ++ " ===\n".data ++ B1 ++
        "\n\n=== ".data ++ L2 ++ " ===\n".data ++ B2)
        ((L1.length + 8 : Nat) : Int)
        ((L1.length + B1.length + 11 : Nat) : Int) =
        '\n' :: (B1 ++ ['\n', '\n']) := by
      rw [jsSlice_nonneg _ _ _ (by omega) (by omega)]
      have harith : L1.length + B1.length + 11 - (L1.length + 8) =
          B1.length + 3 := by omega
      rw [harith, hdecomp]
      rw [show L1.length + 8 =
        ("===".data ++ (' ' :: (L1 ++ [' '])) ++ "===".data).length from
        hlenH1.symm]
      rw [List.drop_left]
      rw [show ('\n' :: (B1 ++ '\n' :: ('\n' ::
          (("===".data ++ (' ' :: (L2 ++ [' '])) ++ "===".data) ++
            '\n' :: B2)))) =
        ('\n' :: (B1 ++ ['\n', '\n'])) ++
          (("===".data ++ (' ' :: (L2 ++ [' '])) ++ "===".data) ++
            '\n' :: B2) from by simp]
      rw [show B1.length + 3 = ('\n' :: (B1 ++ ['\n', '\n'])).length from
        by simp]
      rw [List.take_left]
    have htrim1 : jsTrim ('\n' :: (B1 ++ ['\n', '\n'])) = B1 :=
      jsTrim_pad ['\n'] ['\n', '\n'] B1 (by decide) (by decide) hB1 hB1n
    have hsect2 : jsSlice ("=== ".data ++ L1 ++ " ===\n".data ++ B1 ++
        "\n\n=== ".data ++ L2 ++ " ===\n".data ++ B2)
        ((L1.length + B1.length + L2.length + 19 : Nat) : Int)
        ((L1.length + B1.length + L2.length + B2.length + 20 : Nat) : Int) =
        '\n' :: B2 := by
      rw [jsSlice_nonneg _ _ _ (by omega) (by omega)]
      have harith : L1.length + B1.length + L2.length + B2.length + 20 -
          (L1.length + B1.length + L2.length + 19) = B2.length + 1 := by omega
      rw [harith, hdecomp]
      rw [show (("===".data ++ (' ' :: (L1 ++ [' '])) ++ "===".data) ++ '\n' ::
          (B1 ++ '\n' :: ('\n' ::
            (("===".data ++ (' ' :: (L2 ++ [' '])) ++ "===".data) ++
              '\n' :: B2)))) =
        (("===".data ++ (' ' :: (L1 ++ [' '])) ++ "===".data) ++ '\n' ::
          (B1 ++ '\n' :: ('\n' ::
            ("===".data ++ (' ' :: (L2 ++ [' '])) ++ "===".data))) ++ []) ++
          ('\n' :: B2) from by simp]
      rw [show L1.length + B1.length + L2.length + 19 =
        ((("===".data ++ (' ' :: (L1 ++ [' '])) ++ "===".data) ++ '\n' ::
          (B1 ++ '\n' :: ('\n' ::
            ("===".data ++ (' ' :: (L2 ++ [' '])) ++ "===".data))) ++
              []).length) from by simp; omega]
      rw [List.drop_left]
      exact List.take_of_length_le (by simp)
    have htrim2 : jsTrim ('\n' :: B2) = B2 := by
      have h := jsTrim_pad ['\n'] [] B2 (by decide) (by decide) hB2 hB2n
      rw [List.append_nil] at h
      exact h
    have hf1 : ∃ ty1, reconstructMatchSource uuid
        ("=== ".data ++ L1 ++ " ===\n".data ++ B1 ++ "\n\n=== ".data ++
          L2 ++ " ===\n".data ++ B2) t
        [(0, L1.length + 8, ' ' :: (L1 ++ [' '])),
         (L1.length + B1.length + 11, L2.length + 8, ' ' :: (L2 ++ [' ']))]
        (0, 0, L1.length + 8, ' ' :: (L1 ++ [' '])) =
        some ⟨uuid 0, ty1, L1, B1, t, none⟩ := by
      refine ⟨if containsL "프롬프트".data (L1.map toLowerCh) ||
          containsL "prompt".data (L1.map toLowerCh) ||
          containsL "instruction".data (L1.map toLowerCh) then
        ManualSourceType.instruction else ManualSourceType.file, ?_⟩
      unfold reconstructMatchSource
      dsimp only
      rw [show (([(0, L1.length + 8, ' ' :: (L1 ++ [' '])),
          (L1.length + B1.length + 11, L2.length + 8,
            ' ' :: (L2 ++ [' ']))]).get? (0 + 1)) =
        some (L1.length + B1.length + 11, L2.length + 8,
          ' ' :: (L2 ++ [' '])) from rfl]
      dsimp only
      rw [show ((0 : Nat) : Int) + ((L1.length + 8 : Nat) : Int) =
        ((L1.length + 8 : Nat) : Int) from by push_cast; ring]
      rw [hsect1, htrim1, isEmpty_false_of_ne B1 hB1n]
      simp only [Bool.false_eq_true, if_false]
      rw [hheader1]
    have hf2 : ∃ ty2, reconstructMatchSource uuid
        ("=== ".data ++ L1 ++ " ===\n".data ++ B1 ++ "\n\n=== ".data ++
          L2 ++ " ===\n".data ++ B2) t
        [(0, L1.length + 8, ' ' :: (L1 ++ [' '])),
         (L1.length + B1.length + 11, L2.length + 8, ' ' :: (L2 ++ [' ']))]
        (1, L1.length + B1.length + 11, L2.length + 8,
          ' ' :: (L2 ++ [' '])) =
        some ⟨uuid 1, ty2, L2, B2, t, none⟩ := by
      refine ⟨if containsL "프롬프트".data (L2.map toLowerCh) ||
          containsL "prompt".data (L2.map toLowerCh) ||
          containsL "instruction".data (L2.map toLowerCh) then
        ManualSourceType.instruction else ManualSourceType.file, ?_⟩
      unfold reconstructMatchSource
      dsimp only
      rw [show (([(0, L1.length + 8, ' ' :: (L1 ++ [' '])),
          (L1.length + B1.length + 11, L2.length + 8,
            ' ' :: (L2 ++ [' ']))]).get? (1 + 1)) =
        (none : Option (Nat × Nat × List Char)) from rfl]
      dsimp only
      rw [htextlen]
      rw [show ((L1.length + B1.length + 11 : Nat) : Int) +
          ((L2.length + 8 : Nat) : Int) =
        ((L1.length + B1.length + L2.length + 19 : Nat) : Int) from by
          push_cast; ring]
      rw [show ((L1.length + B1.length + L2.length + B2.length + 20 :
          Nat) : Int) = ((L1.length + B1.length + L2.length + B2.length +
            20 : Nat) : Int) from rfl]
      rw [hsect2, htrim2, isEmpty_false_of_ne B2 hB2n]
      simp only [Bool.false_eq_true, if_false]
      rw [hheader2]
    obtain ⟨ty1, hf1⟩ := hf1
    obtain ⟨ty2, hf2⟩ := hf2
    rw [List.filterMap_cons_some hf1, List.filterMap_cons_some hf2,
      List.filterMap_nil]
    rfl
  · intro hnone
    have hms : headerMatches manualText = [] := by
      unfold headerMatches
      exact headerMatches_filterMap_none 0 hnone
    simp only [reconstructSourcesFromManualText, hms]
    rfl
  · simp only [reconstructSourcesFromManualText]
    cases hms : (headerMatches manualText).isEmpty with
    | true => rfl
    | false =>
      have hcongr : ∀ x ∈ (headerMatches manualText).enum,
          ((reconstructMatchSource u1 manualText t
            (headerMatches manualText)) x).map
              (fun s => (s.type, s.label, s.text, s.createdAt)) =
          ((reconstructMatchSource u2 manualText t
            (headerMatches manualText)) x).map
              (fun s => (s.type, s.label, s.text, s.createdAt)) := by
        intro x hx
        unfold reconstructMatchSource
        dsimp only
        split
        · rfl
        · rfl
      have hmap := filterMap_map_congr (headerMatches manualText).enum
        (reconstructMatchSource u1 manualText t (headerMatches manualText))
        (reconstructMatchSource u2 manualText t (headerMatches manualText))
        (fun s => (s.type, s.label, s.text, s.createdAt)) hcongr
      have hlen : ((headerMatches manualText).enum.filterMap
            (reconstructMatchSource u1 manualText t
              (headerMatches manualText))).length =
          ((headerMatches manualText).enum.filterMap
            (reconstructMatchSource u2 manualText t
              (headerMatches manualText))).length := by
        have := congrArg List.length hmap
        simpa using this
      cases h1 : ((headerMatches manualText).enum.filterMap
          (reconstructMatchSource u1 manualText t
            (headerMatches manualText))).isEmpty with
      | true =>
        have h2 : ((headerMatches manualText).enum.filterMap
            (reconstructMatchSource u2 manualText t
              (headerMatches manualText))).isEmpty = true := by
          rw [List.isEmpty_iff_length_eq_zero] at h1 ⊢
          omega
        rw [h2]
        rfl
      | false =>
        have h2 : ((headerMatches manualText).enum.filterMap
            (reconstructMatchSource u2 manualText t
              (headerMatches manualText))).isEmpty = false := by
          by_cases hh : ((headerMatches manualText).enum.filterMap
              (reconstructMatchSource u2 manualText t
                (headerMatches manualText))).isEmpty = true
          · exfalso
            rw [List.isEmpty_iff_length_eq_zero] at hh
            have h0 : ((headerMatches manualText).enum.filterMap
                (reconstructMatchSource u1 manualText t
                  (headerMatches manualText))).length = 0 := by omega
            rw [← List.isEmpty_iff_length_eq_zero] at h0
            rw [h0] at h1
            cases h1
          · simpa using hh
        rw [h2]
        simp only [Bool.false_eq_true, if_false]
        exact hmap

/-- Closed instance of C5 (a): a concrete two-block manual text
reconstructs to exactly the two block labels and bodies. -/
theorem claim_C5_witness :
    (reconstructSourcesFromManualText (fun n => toString n)
        ("=== ".data ++ "Doc A".data ++ " ===\n".data ++ "alpha body".data ++
          "\n\n=== ".data ++ "Notes".data ++ " ===\n".data ++ "be nice".data)
        "T").map (fun s => (s.label, s.text)) =
      [("Doc A".data, "alpha body".data), ("Notes".data, "be nice".data)] :=
  (claim_C5 (fun n => toString n) (fun n => toString n) (fun n => toString n)
    "T" "Doc A".data "Notes".data "alpha body".data "be nice".data []).1
    (by decide) (by decide) (by decide) (by decide) (by decide) (by decide)
    (by decide) (by decide) (by decide) (by decide) (by decide) (by decide)

end PWS
